import Mathlib

/-!
Verification of the hierarchical directory-tree builder and multi-observer
crawler of `ylabcommon/analysis/crawler.py`.

Shallow embedding conventions:
* A directory name is a `List Char` (Python compares and globs strings by
  code point; `String.data` converts literals).
* A filesystem path is the list of its components relative to the project
  root (`pathlib.Path` objects are compared component-wise; for the sibling
  sets enumerated here that coincides with comparison by final name).
* The filesystem is an explicit finite state: the set of existing
  directories and files.  `Path.rename` becomes a state update.
* Python exceptions become `Except PyErr`; an uncaught exception is an
  `.error` result.
-/

abbrev DirName := List Char

abbrev FsPath := List DirName

/-- Final path component, `pathlib.Path.name` (empty for the root path). -/
def lastName (p : FsPath) : DirName := p.getLastD []

/-- `pathlib.Path.with_name`: replace the final component. -/
def withName (p : FsPath) (n : DirName) : FsPath := p.dropLast ++ [n]

/-- `str(path)`: components joined with a slash. -/
def pathStr (p : FsPath) : DirName := List.intercalate ['/'] p

/-- Helper for `globMatch`: try the continuation on every suffix of the
name, the semantics of a single `*` wildcard. -/
def globStar (matchRest : List Char → Bool) : List Char → Bool
  | [] => matchRest []
  | c :: cs => matchRest (c :: cs) || globStar matchRest cs

/-- Shell-glob match of one path component against a pattern, the pattern
language of `pathlib.Path.glob` as used in this module (`*` and `?`
wildcards and literal characters; the rule sets use only patterns such as
`cond*`, `*`, `day*`, `*XY*`, `result*.csv`). -/
def globMatch : List Char → List Char → Bool
  | [], n => n.isEmpty
  | '*' :: ps, n => globStar (fun m => globMatch ps m) n
  | '?' :: ps, n => match n with
    | [] => false
    | _ :: cs => globMatch ps cs
  | p :: ps, n => match n with
    | [] => false
    | c :: cs => (p = c) && globMatch ps cs

/-- Python `str.split(sep)` for a one-character separator: the list of
(possibly empty) chunks between occurrences of `sep`. -/
def splitOnChar (sep : Char) : List Char → List (List Char)
  | [] => [[]]
  | c :: cs =>
    if c = sep then [] :: splitOnChar sep cs
    else match splitOnChar sep cs with
      | [] => [[c]]
      | part :: parts => (c :: part) :: parts

/-- The directory tree on disk: which directories and which files exist,
each named by its component path. -/
structure Fs where
  dirs : List FsPath
  files : List FsPath
deriving DecidableEq

/-- `Path.is_dir()`. -/
def isDir (fs : Fs) (p : FsPath) : Bool := fs.dirs.contains p

/-- Whether a path exists at all (`Path.exists()`). -/
def fsExists (fs : Fs) (p : FsPath) : Bool :=
  fs.dirs.contains p || fs.files.contains p

/-- Rewrite one path under a rename of `old` to `new`: paths at or below
`old` move with it. -/
def rebasePath (old new p : FsPath) : FsPath :=
  if old.isPrefixOf p then new ++ p.drop old.length else p

/-- Ordering of sibling paths by final name, the order `sorted()` gives to
the result of `Path.glob` (all candidates share the base path, so
comparing `pathlib` paths reduces to comparing final names by code
point). -/
def nameLe (p q : FsPath) : Prop := lastName p ≤ lastName q

instance : DecidableRel nameLe := fun p q =>
  inferInstanceAs (Decidable (lastName p ≤ lastName q))

instance : IsTotal FsPath nameLe := ⟨fun p q => le_total (lastName p) (lastName q)⟩

instance : IsTrans FsPath nameLe := ⟨fun _ _ _ h h' => le_trans h h'⟩

/-- The unsorted result of `base_path.glob(pattern)`: every existing entry
(directory or file) directly inside `base` whose name matches the
pattern. -/
def globEntries (fs : Fs) (base : FsPath) (pat : DirName) : List FsPath :=
  (fs.dirs ++ fs.files).filter fun q =>
    (q.length == base.length + 1) && (q.dropLast == base) && globMatch pat (lastName q)

/-- `sorted(base_path.glob(pattern))`. -/
def globSorted (fs : Fs) (base : FsPath) (pat : DirName) : List FsPath :=
  List.insertionSort nameLe (globEntries fs base pat)

/-!
Node model.  A Python `HierNode` is a mutable object with a `parent`
reference and an owned `children` list.  The embedding splits it:
`NodeCore` holds the per-node fields, `NodeData` adds the chain of
ancestor cores reachable through `parent` (what the parent reference
determines about upward navigation), and `HTree` is a node together with
its owned children subtrees.  `E` is the type of the external experiment
parameter objects produced by `analysis_param.get_exp_param`, which the
core never inspects.
-/

/-- One dictionary payload as built by the level rules: string keys mapped
to an optional experiment parameter (`{"exp_param": exp_param}` or `{}`). -/
abbrev Payload (E : Type) := List (DirName × Option E)

/-- The own fields of a `HierNode`: `name`, `path`, `level`, `payload`. -/
structure NodeCore (E : Type) where
  name : DirName
  path : FsPath
  level : DirName
  payload : Payload E
deriving DecidableEq

/-- A `HierNode` as seen through references: its own fields plus the cores
of its ancestors, nearest first (the content of the `parent` chain). -/
structure NodeData (E : Type) where
  core : NodeCore E
  ancestors : List (NodeCore E)
deriving DecidableEq

/-- `node.name`. -/
def NodeData.name {E : Type} (n : NodeData E) : DirName := n.core.name

/-- `node.path`. -/
def NodeData.path {E : Type} (n : NodeData E) : FsPath := n.core.path

/-- `node.level`. -/
def NodeData.level {E : Type} (n : NodeData E) : DirName := n.core.level

/-- `node.payload`. -/
def NodeData.payload {E : Type} (n : NodeData E) : Payload E := n.core.payload

/-- `node.parent`: `None` for a root, otherwise the parent node. -/
def NodeData.parent {E : Type} (n : NodeData E) : Option (NodeData E) :=
  match n.ancestors with
  | [] => none
  | a :: as => some ⟨a, as⟩

/-- The ancestor chain a child records when created with the given
`parent` argument. -/
def childChain {E : Type} : Option (NodeData E) → List (NodeCore E)
  | none => []
  | some p => p.core :: p.ancestors

/-- Loop body of `HierNode.ancestor`: `while node is not None: if
node.level == level: return node; node = node.parent`. -/
def ancestorGo {E : Type} (level : DirName) (c : NodeCore E) (anc : List (NodeCore E)) :
    Option (NodeData E) :=
  if c.level = level then some ⟨c, anc⟩
  else match anc with
    | [] => none
    | a :: as => ancestorGo level a as

/-- `HierNode.ancestor(level)`. -/
def HierNode.ancestor {E : Type} (n : NodeData E) (level : DirName) : Option (NodeData E) :=
  ancestorGo level n.core n.ancestors

/-- `HierNode._get_ancestor_node(level)`: calls `ancestor` and re-checks
`isinstance(n, HierNode)`, which holds for every node on the chain, so the
guard only turns an absent result into `None` again. -/
def HierNode.get_ancestor_node {E : Type} (n : NodeData E) (level : DirName) :
    Option (NodeData E) :=
  match HierNode.ancestor n level with
  | some m => some m
  | none => none

/-- `BehaviorNode.cond`. -/
def BehaviorNode.cond {E : Type} (n : NodeData E) : Option (NodeData E) :=
  HierNode.get_ancestor_node n "cond".data

/-- `BehaviorNode.mouse`. -/
def BehaviorNode.mouse {E : Type} (n : NodeData E) : Option (NodeData E) :=
  HierNode.get_ancestor_node n "mouse".data

/-- `BehaviorNode.day`. -/
def BehaviorNode.day {E : Type} (n : NodeData E) : Option (NodeData E) :=
  HierNode.get_ancestor_node n "day".data

/-- `SlicePrjNode.cond`. -/
def SlicePrjNode.cond {E : Type} (n : NodeData E) : Option (NodeData E) :=
  HierNode.get_ancestor_node n "cond".data

/-- `SlicePrjNode.cell`. -/
def SlicePrjNode.cell {E : Type} (n : NodeData E) : Option (NodeData E) :=
  HierNode.get_ancestor_node n "cell".data

/-- A node together with its owned `children` subtrees. -/
inductive HTree (E : Type) where
  | node : NodeData E → List (HTree E) → HTree E

/-- The node fields at the root of a subtree. -/
def HTree.data {E : Type} : HTree E → NodeData E
  | .node d _ => d

/-- The `children` list at the root of a subtree. -/
def HTree.children {E : Type} : HTree E → List (HTree E)
  | .node _ cs => cs

mutual
/-- Depth-first pre-order listing of the node fields of a subtree. -/
def preT {E : Type} : HTree E → List (NodeData E)
  | .node d cs => d :: preF cs

/-- Depth-first pre-order listing of the node fields of a forest. -/
def preF {E : Type} : List (HTree E) → List (NodeData E)
  | [] => []
  | t :: ts => preT t ++ preF ts
end

mutual
/-- Number of nodes in a subtree. -/
def sizeT {E : Type} : HTree E → Nat
  | .node _ cs => 1 + sizeF cs

/-- Number of nodes in a forest. -/
def sizeF {E : Type} : List (HTree E) → Nat
  | [] => 0
  | t :: ts => sizeT t + sizeF ts
end

mutual
/-- The proper descendant subtrees of a tree. -/
def subtreesT {E : Type} : HTree E → List (HTree E)
  | .node _ cs => subForest cs

/-- All subtrees of a forest, the forest members included. -/
def subForest {E : Type} : List (HTree E) → List (HTree E)
  | [] => []
  | t :: ts => t :: (subtreesT t ++ subForest ts)
end

mutual
/-- Parent/children mutual consistency: every node's recorded parent is
the node it hangs under (`p` at the roots of the forest considered). -/
def parentOkT {E : Type} [DecidableEq E] (p : Option (NodeData E)) : HTree E → Bool
  | .node d cs => (d.parent == p) && parentOkF (some d) cs

/-- `parentOkT` over a forest of siblings below the same parent. -/
def parentOkF {E : Type} [DecidableEq E] (p : Option (NodeData E)) : List (HTree E) → Bool
  | [] => true
  | t :: ts => parentOkT p t && parentOkF p ts
end

/-!
The generic builder.  Exceptions and the filesystem effects of the rule
callbacks are made explicit: each callback receives the current world (the
filesystem plus the log of messages emitted through the optional logging
capability) and either raises or returns a value together with the
resulting world.
-/

/-- Python exceptions distinguished by this module. -/
inductive PyErr where
  | nameError : DirName → PyErr
  | typeError : DirName → PyErr
  | indexError : PyErr
  | osError : PyErr
  | userError : DirName → PyErr
deriving DecidableEq

/-- The mutable world the build acts on: the directory tree plus the
messages logged so far. -/
structure World where
  fs : Fs
  log : List DirName
deriving DecidableEq

/-- Append one logged message. -/
def logMsg (w : World) (m : DirName) : World :=
  { w with log := w.log ++ [m] }

/-- `old.rename(new)`: fails if `old` does not exist or `new` already
exists (the collision case the source leaves to the operating system),
otherwise moves `old` and everything below it. -/
def renameFs (w : World) (old new : FsPath) : Except PyErr World :=
  if !(fsExists w.fs old) then .error .osError
  else if fsExists w.fs new then .error .osError
  else .ok { w with fs := { dirs := w.fs.dirs.map (rebasePath old new),
                            files := w.fs.files.map (rebasePath old new) } }

/-- `LevelSpec`: level name, glob pattern, and the three callbacks.  Each
callback may raise; `preprocess_dir` and `load_payload` may also change
the world (rename directories, log messages). -/
structure LevelSpec (E : Type) where
  level : DirName
  pattern : DirName
  filter_dir : World → FsPath → Except PyErr Bool
  preprocess_dir : World → FsPath → Except PyErr (FsPath × World)
  load_payload : World → FsPath → Except PyErr (Payload E × World)

/-- The node factory used by both built tree kinds
(`__behavior_node_factory` and `__slice_node_factory` are the record
constructor applied to exactly the five given fields). -/
def behavior_node_factory {E : Type} (name : DirName) (path : FsPath) (level : DirName)
    (parent : Option (NodeData E)) (payload : Payload E) : NodeData E :=
  ⟨⟨name, path, level, payload⟩, childChain parent⟩

/-- The `for d in sorted(base_path.glob(spec.pattern))` loop body of
`_build_level`, over the remaining candidate list; `recur` is the
recursive call of `_build_level` at the next depth. -/
def buildGo {E : Type} (spec : LevelSpec E)
    (recur : Option (NodeData E) → FsPath → World → Except PyErr (List (HTree E) × World))
    (parent : Option (NodeData E)) :
    List FsPath → World → Except PyErr (List (HTree E) × World)
  | [], w => .ok ([], w)
  | d :: ds, w =>
    if !(isDir w.fs d) then buildGo spec recur parent ds w
    else match spec.filter_dir w d with
      | .error e => .error e
      | .ok false => buildGo spec recur parent ds w
      | .ok true =>
        match spec.preprocess_dir w d with
        | .error e => .error e
        | .ok (d2, w1) =>
          match spec.load_payload w1 d2 with
          | .error e => .error e
          | .ok (payload, w2) =>
            let node := behavior_node_factory (lastName d2) d2 spec.level parent payload
            match recur (some node) d2 w2 with
            | .error e => .error e
            | .ok (children, w3) =>
              match buildGo spec recur parent ds w3 with
              | .error e => .error e
              | .ok (nodes, w4) => .ok (HTree.node node children :: nodes, w4)

/-- `_build_level(parent, base_path, depth)`, carried by the list of
rules still to apply: past the last rule the children list is empty,
otherwise enumerate the sorted candidates of this level and run the loop. -/
def buildLevel {E : Type} : List (LevelSpec E) → Option (NodeData E) → FsPath → World →
    Except PyErr (List (HTree E) × World)
  | [], _, _, w => .ok ([], w)
  | spec :: rest, parent, base, w =>
    buildGo spec (fun p b w2 => buildLevel rest p b w2) parent
      (globSorted w.fs base spec.pattern) w

/-- `__build_tree_generic(root, level_specs, node_factory)`: build from the
root with no parent at depth 0. -/
def build_tree_generic {E : Type} (root : FsPath) (level_specs : List (LevelSpec E))
    (w : World) : Except PyErr (List (HTree E) × World) :=
  buildLevel level_specs none root w

/-!
The built-in rule sets.  The closures inside `__make_day_spec` read a
module-level name `param` that is defined nowhere in `crawler.py`: at run
time `hasattr(param, ...)` raises `NameError: name 'param' is not
defined`.  The day-level callbacks therefore take the lookup result of
that global as an argument: `none` is the module as it stands (the lookup
raises), `some p` models the evidently intended analysis-parameter object
(the repository's own tests build the tree with an `analysis_param`
argument threaded to the rules).  The object itself is duck-typed: each
optional capability is probed with `hasattr` before use.
-/

/-- The shared configuration object (`CC_Analysis_Param` and friends) as
the day rule probes it: which optional capabilities `hasattr` finds, and
the metadata lookup, which may itself raise. -/
structure ParamModel (E : Type) where
  has_log_warn : Bool
  has_log_exception : Bool
  get_exp_param : Option (DirName → Except PyErr E)

/-- `__filter_dir_basic(d)`: reject non-directories and names beginning
with an underscore or an at sign (`name[0]` on an empty name would raise
`IndexError`). -/
def filter_dir_basic (w : World) (d : FsPath) : Except PyErr Bool :=
  let name := lastName d
  if !(isDir w.fs d) then .ok false
  else match name with
    | [] => .error .indexError
    | c :: _ => if c = '_' ∨ c = '@' then .ok false else .ok true

/-- Identity `preprocess_dir` used by the cond/mouse/cell rules. -/
def identity_preprocess (w : World) (d : FsPath) : Except PyErr (FsPath × World) :=
  .ok (d, w)

/-- Empty-payload `load_payload` used by the cond/mouse/cell rules. -/
def empty_payload {E : Type} (w : World) (_d : FsPath) : Except PyErr (Payload E × World) :=
  .ok ([], w)

/-- `_preprocess_day(d)`: if the name has no underscore, rename the
directory with an appended underscore, logging a warning before and after
when the capability is present; otherwise pass the path through.  `param?`
is the lookup of the global `param` (see the section comment). -/
def preprocess_day {E : Type} (param? : Option (ParamModel E)) (w : World) (d : FsPath) :
    Except PyErr (FsPath × World) :=
  if (splitOnChar '_' (lastName d)).length < 2 then
    let old := d
    let new := withName d (lastName d ++ ['_'])
    match param? with
    | none => .error (.nameError "param".data)
    | some param =>
      let w1 := if param.has_log_warn
        then logMsg w ("Inappropriate day name: ".data ++ pathStr old) else w
      match renameFs w1 old new with
      | .error e => .error e
      | .ok w2 =>
        let w3 := if param.has_log_warn then logMsg w2 ("Renamed: ".data ++ pathStr new) else w2
        .ok (new, w3)
  else .ok (d, w)

/-- `_load_day_payload(d)`: probe `get_exp_param`, catching any exception
it raises (logging it when the capability is present) and keeping
`exp_param = None`; the payload is always `{"exp_param": exp_param}`.
`param?` is the lookup of the global `param`. -/
def load_day_payload {E : Type} (param? : Option (ParamModel E)) (w : World) (d : FsPath) :
    Except PyErr (Payload E × World) :=
  match param? with
  | none => .error (.nameError "param".data)
  | some param =>
    match param.get_exp_param with
    | none => .ok ([("exp_param".data, none)], w)
    | some f =>
      match f (pathStr d) with
      | .ok v => .ok ([("exp_param".data, some v)], w)
      | .error _ =>
        let w1 := if param.has_log_exception then logMsg w "log_exception".data else w
        .ok ([("exp_param".data, none)], w1)

/-- `__make_cond_spec()`. -/
def make_cond_spec {E : Type} : LevelSpec E :=
  { level := "cond".data, pattern := "cond*".data,
    filter_dir := filter_dir_basic,
    preprocess_dir := identity_preprocess,
    load_payload := empty_payload }

/-- `__make_mouse_spec()`. -/
def make_mouse_spec {E : Type} : LevelSpec E :=
  { level := "mouse".data, pattern := "*".data,
    filter_dir := filter_dir_basic,
    preprocess_dir := identity_preprocess,
    load_payload := empty_payload }

/-- `__make_day_spec()`, with the global-`param` lookup made explicit. -/
def make_day_spec {E : Type} (param? : Option (ParamModel E)) : LevelSpec E :=
  { level := "day".data, pattern := "day*".data,
    filter_dir := filter_dir_basic,
    preprocess_dir := preprocess_day param?,
    load_payload := load_day_payload param? }

/-- `__make_cell_spec()`. -/
def make_cell_spec {E : Type} : LevelSpec E :=
  { level := "cell".data, pattern := "*XY*".data,
    filter_dir := filter_dir_basic,
    preprocess_dir := identity_preprocess,
    load_payload := empty_payload }

/-- The rule list of `build_behavior_tree` as the module defines it: the
day rule reads the undefined global `param` (lookup result `none`). -/
def behaviorSpecsAsWritten {E : Type} : List (LevelSpec E) :=
  [make_cond_spec, make_mouse_spec, make_day_spec none]

/-- `build_behavior_tree(prj_root, analysis_param)` as written: it invokes
`__build_tree_generic` with a keyword argument `analysis_param` that the
builder's signature does not declare, so Python raises `TypeError` at the
call, before any directory is touched. -/
def build_behavior_tree {E : Type} (_prj_root : FsPath) (_w : World) :
    Except PyErr (List (HTree E) × World) :=
  .error (.typeError "unexpected keyword argument analysis_param".data)

/-- Modelled from the spec: the intended behavior-tree build, missing from
the source only through two slips (the stray `analysis_param` keyword and
the undefined global `param`): the generic builder over the
`[cond*, *, day*]` rules with the analysis-parameter object supplied to
the day rule, as the repository's tests exercise it. -/
def build_behavior_tree_spec {E : Type} (param : ParamModel E) (prj_root : FsPath)
    (w : World) : Except PyErr (List (HTree E) × World) :=
  build_tree_generic prj_root [make_cond_spec, make_mouse_spec, make_day_spec (some param)] w

/-- `build_slice_tree(prj_root)` (this entry point passes no stray
keyword). -/
def build_slice_tree {E : Type} (prj_root : FsPath) (w : World) :
    Except PyErr (List (HTree E) × World) :=
  build_tree_generic prj_root [make_cond_spec, make_cell_spec] w

/-!
The crawler.  A `GenericKernel` is a bundle of hooks, each of which may
raise; `C` is the type of the `CrawlContext` passed unchanged to every
hook.  The traversal is embedded as the sequence of hook calls it
performs: each call is recorded as an `Event` tagged with the kernel's
position in the registration list, and the first raised exception stops
the run, returning the events up to and including the failing call.
-/

/-- The hook set of a `GenericKernel`. -/
structure GenericKernel (C E : Type) where
  on_project_start : C → List (HTree E) → Except PyErr Unit
  on_node : C → NodeData E → Except PyErr Unit
  retrieve_file_with_pattern : NodeData E → DirName
  on_file : C → NodeData E → FsPath → Except PyErr Unit
  on_project_end : C → List (HTree E) → Except PyErr Unit

/-- One hook call performed by a crawl, tagged with the kernel's position
in the registration list. -/
inductive Event (E : Type) where
  | projStart : Nat → Event E
  | nodeEv : Nat → NodeData E → Event E
  | fileEv : Nat → NodeData E → FsPath → Event E
  | projEnd : Nat → Event E
deriving DecidableEq

/-- The `for f in sorted(node.path.glob(pattern)): k.on_file(...)` loop of
`_walk_node`, over the remaining file list. -/
def fileLoop {C E : Type} (k : GenericKernel C E) (ctx : C) (i : Nat) (d : NodeData E) :
    List FsPath → List (Event E) × Option PyErr
  | [] => ([], none)
  | f :: rest =>
    match k.on_file ctx d f with
    | .error e => ([.fileEv i d f], some e)
    | .ok _ =>
      match fileLoop k ctx i d rest with
      | (evs, r) => (.fileEv i d f :: evs, r)

/-- The `for k in self.kernels` loop of `_walk_node` at one node: call
`on_node`, then, when `retrieve_file_with_pattern` is non-empty, call
`on_file` on each matched file in sorted order. -/
def kernelLoop {C E : Type} (ctx : C) (fs : Fs) (d : NodeData E) :
    List (Nat × GenericKernel C E) → List (Event E) × Option PyErr
  | [] => ([], none)
  | (i, k) :: ks =>
    match k.on_node ctx d with
    | .error e => ([.nodeEv i d], some e)
    | .ok _ =>
      let pattern := k.retrieve_file_with_pattern d
      match (if pattern.isEmpty then ([], none)
             else fileLoop k ctx i d (globSorted fs d.path pattern)) with
      | (fevs, some e) => (.nodeEv i d :: fevs, some e)
      | (fevs, none) =>
        match kernelLoop ctx fs d ks with
        | (revs, r) => (.nodeEv i d :: (fevs ++ revs), r)

mutual
/-- `GenericCrawler._walk_node(node)`: dispatch the node to every kernel,
then recurse into the children. -/
def walk_node {C E : Type} (iks : List (Nat × GenericKernel C E)) (ctx : C) (fs : Fs) :
    HTree E → List (Event E) × Option PyErr
  | .node d cs =>
    match kernelLoop ctx fs d iks with
    | (evs, some e) => (evs, some e)
    | (evs, none) =>
      match walk_forest iks ctx fs cs with
      | (cevs, r) => (evs ++ cevs, r)

/-- The `for root in roots`, and `for child in node.children`, loops of
the crawler. -/
def walk_forest {C E : Type} (iks : List (Nat × GenericKernel C E)) (ctx : C) (fs : Fs) :
    List (HTree E) → List (Event E) × Option PyErr
  | [] => ([], none)
  | t :: ts =>
    match walk_node iks ctx fs t with
    | (evs, some e) => (evs, some e)
    | (evs, none) =>
      match walk_forest iks ctx fs ts with
      | (tevs, r) => (evs ++ tevs, r)
end

/-- The `for k in self.kernels: k.on_project_start(...)` loop. -/
def startLoop {C E : Type} (ctx : C) (roots : List (HTree E)) :
    List (Nat × GenericKernel C E) → List (Event E) × Option PyErr
  | [] => ([], none)
  | (i, k) :: ks =>
    match k.on_project_start ctx roots with
    | .error e => ([.projStart i], some e)
    | .ok _ =>
      match startLoop ctx roots ks with
      | (evs, r) => (.projStart i :: evs, r)

/-- The `for k in self.kernels: k.on_project_end(...)` loop. -/
def endLoop {C E : Type} (ctx : C) (roots : List (HTree E)) :
    List (Nat × GenericKernel C E) → List (Event E) × Option PyErr
  | [] => ([], none)
  | (i, k) :: ks =>
    match k.on_project_end ctx roots with
    | .error e => ([.projEnd i], some e)
    | .ok _ =>
      match endLoop ctx roots ks with
      | (evs, r) => (.projEnd i :: evs, r)

/-- `GenericCrawler.crawl_from_nodes(roots)` for a crawler constructed
with the given kernel list and context: the start round, the walk of every
root, then the end round, stopped at the first exception. -/
def crawl_from_nodes {C E : Type} (kernels : List (GenericKernel C E)) (ctx : C) (fs : Fs)
    (roots : List (HTree E)) : List (Event E) × Option PyErr :=
  match startLoop ctx roots kernels.enum with
  | (sevs, some e) => (sevs, some e)
  | (sevs, none) =>
    match walk_forest kernels.enum ctx fs roots with
    | (wevs, some e) => (sevs ++ wevs, some e)
    | (wevs, none) =>
      match endLoop ctx roots kernels.enum with
      | (eevs, r) => (sevs ++ wevs ++ eevs, r)

/-- The hook call an event stands for, and its result. -/
def hookResult {C E : Type} (kernels : List (GenericKernel C E)) (ctx : C)
    (roots : List (HTree E)) : Event E → Except PyErr Unit
  | .projStart i => match kernels[i]? with
    | some k => k.on_project_start ctx roots
    | none => .ok ()
  | .nodeEv i d => match kernels[i]? with
    | some k => k.on_node ctx d
    | none => .ok ()
  | .fileEv i d f => match kernels[i]? with
    | some k => k.on_file ctx d f
    | none => .ok ()
  | .projEnd i => match kernels[i]? with
    | some k => k.on_project_end ctx roots
    | none => .ok ()

/-- A run outcome is faithful to the hooks: on success every recorded call
returned normally; on an exception the recorded calls are the normal ones
followed by exactly the failing call, whose exception is the one
propagated. -/
def RanOk {E : Type} (R : Event E → Except PyErr Unit) :
    List (Event E) × Option PyErr → Prop
  | (evs, none) => ∀ ev ∈ evs, R ev = .ok ()
  | (evs, some e) => ∃ pre ev, evs = pre ++ [ev] ∧ (∀ x ∈ pre, R x = .ok ()) ∧ R ev = .error e

/-- A kernel none of whose hooks raises, under the given context. -/
def KernelTotal {C E : Type} (k : GenericKernel C E) (ctx : C) : Prop :=
  (∀ roots, k.on_project_start ctx roots = .ok ()) ∧
  (∀ d, k.on_node ctx d = .ok ()) ∧
  (∀ d f, k.on_file ctx d f = .ok ()) ∧
  (∀ roots, k.on_project_end ctx roots = .ok ())

/-- The `on_file` events kernel `i` receives at node `d`: none when its
pattern is empty, one per matched file in sorted order otherwise. -/
def fileEvents {C E : Type} (i : Nat) (k : GenericKernel C E) (fs : Fs) (d : NodeData E) :
    List (Event E) :=
  if (k.retrieve_file_with_pattern d).isEmpty then []
  else (globSorted fs d.path (k.retrieve_file_with_pattern d)).map (fun f => .fileEv i d f)

/-- The events one node contributes to a throw-free crawl: for each kernel
in registration order, its `on_node` call followed by its file events. -/
def nodeBlock {C E : Type} (iks : List (Nat × GenericKernel C E)) (fs : Fs)
    (d : NodeData E) : List (Event E) :=
  iks.flatMap (fun ik => .nodeEv ik.1 d :: fileEvents ik.1 ik.2 fs d)

/-- The full event sequence of a throw-free crawl. -/
def crawlEvents {C E : Type} (kernels : List (GenericKernel C E)) (fs : Fs)
    (roots : List (HTree E)) : List (Event E) :=
  kernels.enum.map (fun ik => Event.projStart ik.1)
    ++ (preF roots).flatMap (nodeBlock kernels.enum fs)
    ++ kernels.enum.map (fun ik => Event.projEnd ik.1)

/-!
Concrete fixtures: the on-disk layout of the specification's scenario
(`cond_A/mouse_1/{day001, day002_}` and `cond_B/mouse_X/day100`, relative
to the project root `[]`), and small kernels and worlds used to evaluate
the theorems on concrete inputs.
-/

/-- The scenario filesystem. -/
def scenarioFs : Fs :=
  { dirs := [["cond_A".data],
             ["cond_A".data, "mouse_1".data],
             ["cond_A".data, "mouse_1".data, "day001".data],
             ["cond_A".data, "mouse_1".data, "day002_".data],
             ["cond_B".data],
             ["cond_B".data, "mouse_X".data],
             ["cond_B".data, "mouse_X".data, "day100".data]],
    files := [] }

/-- The scenario world, with an empty log. -/
def scenarioWorld : World := { fs := scenarioFs, log := [] }

/-- A capability-free analysis-parameter object (every `hasattr` probe
fails), over `Nat` experiment parameters. -/
def param0 : ParamModel Nat :=
  { has_log_warn := false, has_log_exception := false, get_exp_param := none }

/-- The chain of nodes the `ancestor` walk visits: the node itself, then
each ancestor in turn. -/
def chainOf {E : Type} : NodeCore E → List (NodeCore E) → List (NodeData E)
  | c, [] => [⟨c, []⟩]
  | c, a :: as => ⟨c, a :: as⟩ :: chainOf a as

/-- Whether an event is an `on_node` call. -/
def isNodeEv {E : Type} : Event E → Bool
  | .nodeEv _ _ => true
  | _ => false

/-- The forest and world the intended behavior build returns on the
scenario layout (with the fallback branch unreachable). -/
def scenarioBuilt : List (HTree Nat) × World :=
  match build_behavior_tree_spec param0 [] scenarioWorld with
  | .ok rw => rw
  | .error _ => ([], scenarioWorld)

/-- A single mouse directory holding `day001` and `day002_`, for watching
the day-level rename during one level. -/
def mouseWorld : World :=
  { fs := { dirs := [["mouse_1".data],
                     ["mouse_1".data, "day001".data],
                     ["mouse_1".data, "day002_".data]],
            files := [] },
    log := [] }

/-- The day forest built from `mouseWorld`. -/
def dayForest : List (HTree Nat) :=
  [HTree.node ⟨⟨"day001_".data, ["mouse_1".data, "day001_".data], "day".data,
      [("exp_param".data, none)]⟩, []⟩ [],
   HTree.node ⟨⟨"day002_".data, ["mouse_1".data, "day002_".data], "day".data,
      [("exp_param".data, none)]⟩, []⟩ []]

/-- `mouseWorld` after the day-level build renamed `day001`. -/
def dayWorldAfter : World :=
  { fs := { dirs := [["mouse_1".data],
                     ["mouse_1".data, "day001_".data],
                     ["mouse_1".data, "day002_".data]],
            files := [] },
    log := [] }

/-- An analysis-parameter object whose metadata lookup always raises. -/
def paramThrows : ParamModel Nat :=
  { has_log_warn := false, has_log_exception := true,
    get_exp_param := some (fun _ => .error .osError) }

/-- A crawl fixture: one directory `d1` holding two csv files. -/
def crawlFs : Fs :=
  { dirs := [["d1".data]],
    files := [["d1".data, "a.csv".data], ["d1".data, "b.csv".data]] }

/-- The node standing for `d1`. -/
def node1 : NodeData Nat :=
  ⟨⟨"d1".data, ["d1".data], "day".data, []⟩, []⟩

/-- A one-node forest over `d1`. -/
def forest1 : List (HTree Nat) := [HTree.node node1 []]

/-- A kernel whose `on_file` always raises. -/
def kernelBoom : GenericKernel Unit Nat :=
  { on_project_start := fun _ _ => .ok (),
    on_node := fun _ _ => .ok (),
    retrieve_file_with_pattern := fun _ => "*.csv".data,
    on_file := fun _ _ _ => .error (.userError "boom".data),
    on_project_end := fun _ _ => .ok () }

/-- A kernel with no file pattern and no effects. -/
def kernelQuiet : GenericKernel Unit Nat :=
  { on_project_start := fun _ _ => .ok (),
    on_node := fun _ _ => .ok (),
    retrieve_file_with_pattern := fun _ => [],
    on_file := fun _ _ _ => .ok (),
    on_project_end := fun _ _ => .ok () }

/-- A kernel with a csv file pattern and no effects. -/
def kernelFiles : GenericKernel Unit Nat :=
  { on_project_start := fun _ _ => .ok (),
    on_node := fun _ _ => .ok (),
    retrieve_file_with_pattern := fun _ => "*.csv".data,
    on_file := fun _ _ _ => .ok (),
    on_project_end := fun _ _ => .ok () }

/-- A two-root forest: `d1` with child `d2`, and `d3`. -/
def forest2 : List (HTree Nat) :=
  [HTree.node node1 [HTree.node ⟨⟨"d2".data, ["d1".data, "d2".data], "x".data, []⟩,
      [node1.core]⟩ []],
   HTree.node ⟨⟨"d3".data, ["d3".data], "day".data, []⟩, []⟩ []]

/-- A concrete deep node for exercising ancestor resolution: a day node
below `mouse_1` below `cond_A`. -/
def dayNodeEx : NodeData Nat :=
  ⟨⟨"day001_".data, ["cond_A".data, "mouse_1".data, "day001_".data], "day".data, []⟩,
   [⟨"mouse_1".data, ["cond_A".data, "mouse_1".data], "mouse".data, []⟩,
    ⟨"cond_A".data, ["cond_A".data], "cond".data, []⟩]⟩

/-- The cond-level forest of the scenario layout (one level only). -/
def condForest : List (HTree Nat) :=
  [HTree.node ⟨⟨"cond_A".data, ["cond_A".data], "cond".data, []⟩, []⟩ [],
   HTree.node ⟨⟨"cond_B".data, ["cond_B".data], "cond".data, []⟩, []⟩ []]

/-- What construction guarantees about every node of a built forest: its
name is the final component of its path, and its path is an output of the
normalization of the rule for its level. -/
def NodeFacts {E : Type} (specs : List (LevelSpec E)) (nd : NodeData E) : Prop :=
  nd.name = lastName nd.path ∧
  ∃ spec ∈ specs, nd.level = spec.level ∧
    ∃ w1 dd w2, spec.preprocess_dir w1 dd = .ok (nd.path, w2)

/-- A rule whose filter raises, for exercising the failure policy. -/
def specFilterBoom : LevelSpec Nat :=
  { level := "x".data, pattern := "*".data,
    filter_dir := fun _ _ => .error (.userError "filter".data),
    preprocess_dir := identity_preprocess,
    load_payload := empty_payload }

/-- A rule whose normalization raises, for exercising the failure policy. -/
def specPreBoom : LevelSpec Nat :=
  { level := "x".data, pattern := "*".data,
    filter_dir := fun _ _ => .ok true,
    preprocess_dir := fun _ _ => .error .osError,
    load_payload := empty_payload }

/-!
Theorems.  Helper lemmas come first, then one theorem per claim, each
followed by its witness when the statement carries hypotheses.
-/

theorem getLastD_append_singleton {α : Type} (l : List α) (a b : α) :
    (l ++ [a]).getLastD b = a := by
  induction l with
  | nil => rfl
  | cons c cs ih =>
    cases cs with
    | nil => rfl
    | cons d ds => simpa using ih

theorem lastName_withName (p : FsPath) (n : DirName) : lastName (withName p n) = n := by
  simp [lastName, withName, getLastD_append_singleton]

theorem splitOnChar_ne_nil (sep : Char) (l : List Char) : splitOnChar sep l ≠ [] := by
  induction l with
  | nil => simp [splitOnChar]
  | cons c cs ih =>
    by_cases h : c = sep
    · simp [splitOnChar, h]
    · simp only [splitOnChar, if_neg h]
      rcases hsp : splitOnChar sep cs with _ | ⟨p, ps⟩
      · exact absurd hsp ih
      · simp

theorem splitOnChar_short_iff (sep : Char) (l : List Char) :
    (splitOnChar sep l).length < 2 ↔ sep ∉ l := by
  induction l with
  | nil => simp [splitOnChar]
  | cons c cs ih =>
    by_cases h : c = sep
    · subst h
      constructor
      · intro hlt
        exfalso
        have hun : splitOnChar c (c :: cs) = [] :: splitOnChar c cs := by
          simp [splitOnChar]
        rw [hun] at hlt
        simp only [List.length_cons] at hlt
        have hpos : 0 < (splitOnChar c cs).length :=
          List.length_pos.mpr (splitOnChar_ne_nil c cs)
        omega
      · intro hmem
        exact absurd (List.mem_cons_self c cs) hmem
    · simp only [splitOnChar, if_neg h]
      rcases hsp : splitOnChar sep cs with _ | ⟨p, ps⟩
      · exact absurd hsp (splitOnChar_ne_nil sep cs)
      · rw [hsp] at ih
        simp only [List.length_cons] at ih ⊢
        simp only [List.mem_cons]
        constructor
        · intro hlt hor
          rcases hor with hceq | hmem
          · exact h hceq.symm
          · exact (ih.mp hlt) hmem
        · intro hnot
          exact ih.mpr (fun hmem => hnot (Or.inr hmem))

theorem preprocess_day_of_underscore {E : Type} (param? : Option (ParamModel E))
    (w : World) (d : FsPath) (h : '_' ∈ lastName d) :
    preprocess_day param? w d = .ok (d, w) := by
  have hc : ¬ (splitOnChar '_' (lastName d)).length < 2 := by
    intro hlt
    exact (splitOnChar_short_iff '_' (lastName d)).mp hlt h
  simp [preprocess_day, if_neg hc]

theorem preprocess_day_ok_underscore {E : Type} {param? : Option (ParamModel E)}
    {w : World} {d d2 : FsPath} {w' : World}
    (h : preprocess_day param? w d = .ok (d2, w')) : '_' ∈ lastName d2 := by
  by_cases hc : (splitOnChar '_' (lastName d)).length < 2
  · rcases param? with _ | param
    · simp [preprocess_day, if_pos hc] at h
    · simp only [preprocess_day, if_pos hc] at h
      rcases hren : renameFs (if param.has_log_warn
          then logMsg w ("Inappropriate day name: ".data ++ pathStr d) else w)
          d (withName d (lastName d ++ ['_'])) with e | w2
      · rw [hren] at h; exact absurd h (by simp)
      · rw [hren] at h
        simp only [Except.ok.injEq, Prod.mk.injEq] at h
        rw [← h.1, lastName_withName]
        exact List.mem_append_right _ (List.mem_singleton.mpr rfl)
  · have hmem : '_' ∈ lastName d := by
      by_contra hno
      exact hc ((splitOnChar_short_iff '_' (lastName d)).mpr hno)
    rw [preprocess_day_of_underscore param? w d hmem] at h
    simp only [Except.ok.injEq, Prod.mk.injEq] at h
    rw [← h.1]
    exact hmem

/-- C6: the day-level normalization is idempotent: a directory whose name
already contains the underscore separator is returned unchanged with the
world untouched, and whenever one application succeeds, applying the
normalization again to the returned path is a no-op (the result always
carries the separator, so no second suffix is ever appended).  `param?` is
the lookup of the module global `param` (see `preprocess_day`). -/
theorem day_normalization_idempotent {E : Type} (param? : Option (ParamModel E))
    (w : World) (d : FsPath) :
    ('_' ∈ lastName d → preprocess_day param? w d = .ok (d, w)) ∧
    (∀ d2 w', preprocess_day param? w d = .ok (d2, w') →
      preprocess_day param? w' d2 = .ok (d2, w')) := by
  refine ⟨fun h => preprocess_day_of_underscore param? w d h, fun d2 w' h => ?_⟩
  exact preprocess_day_of_underscore param? w' d2 (preprocess_day_ok_underscore h)

theorem day_normalization_idempotent_witness :
    ('_' ∈ lastName ["mouse_1".data, "day002_".data]
      ∧ preprocess_day (some param0) scenarioWorld ["mouse_1".data, "day002_".data]
        = .ok (["mouse_1".data, "day002_".data], scenarioWorld)) ∧
    (preprocess_day (some param0) mouseWorld ["mouse_1".data, "day001".data]
        = .ok (["mouse_1".data, "day001_".data], dayWorldAfter) ∧
     preprocess_day (some param0) dayWorldAfter ["mouse_1".data, "day001_".data]
        = .ok (["mouse_1".data, "day001_".data], dayWorldAfter)) := by
  constructor
  · exact ⟨by decide,
      (day_normalization_idempotent (some param0) scenarioWorld
        ["mouse_1".data, "day002_".data]).1 (by decide)⟩
  · have h1 : preprocess_day (some param0) mouseWorld ["mouse_1".data, "day001".data]
        = .ok (["mouse_1".data, "day001_".data], dayWorldAfter) := rfl
    exact ⟨h1,
      (day_normalization_idempotent (some param0) mouseWorld
        ["mouse_1".data, "day001".data]).2 _ _ h1⟩

theorem ancestorGo_eq_find (level : DirName) {E : Type} (c : NodeCore E)
    (anc : List (NodeCore E)) :
    ancestorGo level c anc
      = (chainOf c anc).find? (fun m => m.level == level) := by
  induction anc generalizing c with
  | nil =>
    by_cases h : c.level = level
    · simp [ancestorGo, chainOf, List.find?, NodeData.level, beq_iff_eq, h]
    · have hb : (c.level == level) = false := beq_eq_false_iff_ne.mpr h
      simp [ancestorGo, chainOf, List.find?, NodeData.level, h, hb]
  | cons a as ih =>
    by_cases h : c.level = level
    · simp [ancestorGo, chainOf, List.find?, NodeData.level, beq_iff_eq, h]
    · have hb : (c.level == level) = false := beq_eq_false_iff_ne.mpr h
      simp [ancestorGo, chainOf, List.find?, NodeData.level, h, hb, ih]

/-- C7: `ancestor(level)` starts at the node itself and walks the parent
chain: it equals the first match on that chain (the nearest ancestor with
the requested level, the node itself included), is `none` exactly when no
node of the chain matches, a node queried for its own level returns
itself, and the convenience accessors return exactly what `ancestor`
returns for the corresponding level name.  The walk is primitive
recursion on the chain, so it always terminates with a plain `Option`
result and can raise nothing. -/
theorem ancestor_resolution {E : Type} (n : NodeData E) (level : DirName) :
    HierNode.ancestor n level
      = (chainOf n.core n.ancestors).find? (fun m => m.level == level) ∧
    (n.level = level → HierNode.ancestor n level = some n) ∧
    BehaviorNode.cond n = HierNode.ancestor n "cond".data ∧
    BehaviorNode.mouse n = HierNode.ancestor n "mouse".data ∧
    BehaviorNode.day n = HierNode.ancestor n "day".data ∧
    SlicePrjNode.cond n = HierNode.ancestor n "cond".data ∧
    SlicePrjNode.cell n = HierNode.ancestor n "cell".data := by
  have hacc : ∀ lv : DirName, HierNode.get_ancestor_node n lv = HierNode.ancestor n lv := by
    intro lv
    unfold HierNode.get_ancestor_node
    rcases HierNode.ancestor n lv with _ | m <;> rfl
  refine ⟨ancestorGo_eq_find level n.core n.ancestors, ?_, hacc _, hacc _, hacc _, hacc _, hacc _⟩
  intro h
  have h' : n.core.level = level := h
  show ancestorGo level n.core n.ancestors = some n
  unfold ancestorGo
  rw [if_pos h']

theorem ancestor_resolution_witness :
    (HierNode.ancestor dayNodeEx "mouse".data
      = (chainOf dayNodeEx.core dayNodeEx.ancestors).find? (fun m => m.level == "mouse".data)) ∧
    (dayNodeEx.level = "day".data ∧ HierNode.ancestor dayNodeEx "day".data = some dayNodeEx) ∧
    BehaviorNode.cond dayNodeEx = HierNode.ancestor dayNodeEx "cond".data := by
  refine ⟨(ancestor_resolution dayNodeEx "mouse".data).1,
    ⟨by decide, (ancestor_resolution dayNodeEx "day".data).2.1 (by decide)⟩,
    (ancestor_resolution dayNodeEx "cond".data).2.2.1⟩

/-- C3: during construction, an exception from a rule's `preprocess_dir`
or `filter_dir` is not caught: the loop returns the error and no tree
(the `Except` result carries no partial forest).  An exception raised by
the metadata lookup inside the day rule's loader is recovered locally:
it is logged exactly when the `log_exception` capability is present, the
payload degrades to `{"exp_param": None}`, and the node is still created
(shown on the loop step for a day candidate).  The day callbacks receive
the analysis-parameter object the source intends for its undefined global
`param`. -/
theorem build_error_policy :
    (∀ (E : Type) (spec : LevelSpec E) recur parent (ds : List FsPath) (w : World)
        (d : FsPath) (e : PyErr),
      isDir w.fs d = true → spec.filter_dir w d = .error e →
      buildGo spec recur parent (d :: ds) w = .error e) ∧
    (∀ (E : Type) (spec : LevelSpec E) recur parent (ds : List FsPath) (w : World)
        (d : FsPath) (e : PyErr),
      isDir w.fs d = true → spec.filter_dir w d = .ok true →
      spec.preprocess_dir w d = .error e →
      buildGo spec recur parent (d :: ds) w = .error e) ∧
    (∀ (E : Type) (param : ParamModel E) (f : DirName → Except PyErr E)
        (w : World) (d : FsPath) (e : PyErr),
      param.get_exp_param = some f → f (pathStr d) = .error e →
      load_day_payload (some param) w d
        = .ok ([("exp_param".data, none)],
               if param.has_log_exception then logMsg w "log_exception".data else w)) ∧
    (∀ (E : Type) (param : ParamModel E) (f : DirName → Except PyErr E)
        (parent : Option (NodeData E)) (d : FsPath) (w : World) (e : PyErr),
      param.get_exp_param = some f → f (pathStr d) = .error e →
      isDir w.fs d = true → filter_dir_basic w d = .ok true → '_' ∈ lastName d →
      buildGo (make_day_spec (some param)) (fun p b w2 => buildLevel [] p b w2) parent [d] w
        = .ok ([HTree.node (behavior_node_factory (lastName d) d "day".data parent
                  [("exp_param".data, none)]) []],
               if param.has_log_exception then logMsg w "log_exception".data else w)) := by
  refine ⟨?_, ?_, ?_, ?_⟩
  · intro E spec recur parent ds w d e hdir herr
    simp [buildGo, hdir, herr]
  · intro E spec recur parent ds w d e hdir hfil herr
    simp [buildGo, hdir, hfil, herr]
  · intro E param f w d e hf herr
    simp [load_day_payload, hf, herr]
  · intro E param f parent d w e hf herr hdir hfil hund
    have hload : load_day_payload (some param) w d
        = .ok ([("exp_param".data, none)],
               if param.has_log_exception then logMsg w "log_exception".data else w) := by
      simp [load_day_payload, hf, herr]
    have hpre : preprocess_day (some param) w d = .ok (d, w) :=
      preprocess_day_of_underscore (some param) w d hund
    simp [buildGo, hdir, make_day_spec, hfil, hpre, hload, buildLevel]

theorem build_error_policy_witness :
    (isDir mouseWorld.fs ["mouse_1".data, "day002_".data] = true ∧
     specFilterBoom.filter_dir mouseWorld ["mouse_1".data, "day002_".data]
       = .error (.userError "filter".data) ∧
     buildGo specFilterBoom (fun p b w2 => buildLevel [] p b w2) none
       [["mouse_1".data, "day002_".data]] mouseWorld = .error (.userError "filter".data)) ∧
    (specPreBoom.preprocess_dir mouseWorld ["mouse_1".data, "day002_".data] = .error .osError ∧
     buildGo specPreBoom (fun p b w2 => buildLevel [] p b w2) none
       [["mouse_1".data, "day002_".data]] mouseWorld = .error .osError) ∧
    (load_day_payload (some paramThrows) mouseWorld ["mouse_1".data, "day002_".data]
       = .ok ([("exp_param".data, none)], logMsg mouseWorld "log_exception".data)) ∧
    (buildGo (make_day_spec (some paramThrows)) (fun p b w2 => buildLevel [] p b w2) none
       [["mouse_1".data, "day002_".data]] mouseWorld
       = .ok ([HTree.node (behavior_node_factory ("day002_".data)
                 ["mouse_1".data, "day002_".data] "day".data none
                 [("exp_param".data, none)]) []],
              logMsg mouseWorld "log_exception".data)) := by
  refine ⟨⟨by decide, rfl, ?_⟩, ⟨rfl, ?_⟩, ?_, ?_⟩
  · exact build_error_policy.1 Nat specFilterBoom _ none [] mouseWorld _ _ (by decide) rfl
  · exact build_error_policy.2.1 Nat specPreBoom _ none [] mouseWorld _ _ (by decide) rfl rfl
  · exact build_error_policy.2.2.1 Nat paramThrows _ mouseWorld _ .osError rfl rfl
  · exact build_error_policy.2.2.2 Nat paramThrows _ none _ mouseWorld .osError rfl rfl
      rfl rfl (by decide)

theorem mem_globSorted {fs : Fs} {base : FsPath} {pat : DirName} {q : FsPath} :
    q ∈ globSorted fs base pat ↔
      (q ∈ fs.dirs ++ fs.files ∧ q.length = base.length + 1 ∧ q.dropLast = base ∧
        globMatch pat (lastName q) = true) := by
  rw [globSorted, (List.perm_insertionSort nameLe (globEntries fs base pat)).mem_iff]
  simp only [globEntries, List.mem_filter, Bool.and_eq_true, beq_iff_eq]
  tauto

theorem buildGo_length_le {E : Type} (spec : LevelSpec E)
    (recur : Option (NodeData E) → FsPath → World → Except PyErr (List (HTree E) × World))
    (parent : Option (NodeData E)) :
    ∀ (ds : List FsPath) (w : World) (nodes : List (HTree E)) (w' : World),
      buildGo spec recur parent ds w = .ok (nodes, w') → nodes.length ≤ ds.length := by
  intro ds
  induction ds with
  | nil =>
    intro w nodes w' h
    simp only [buildGo] at h
    cases h
    simp
  | cons d ds ih =>
    intro w nodes w' h
    simp only [buildGo] at h
    by_cases hdir : (!(isDir w.fs d)) = true
    · rw [if_pos hdir] at h
      exact (ih _ _ _ h).trans (Nat.le_succ _)
    · rw [if_neg hdir] at h
      rcases hfil : spec.filter_dir w d with e | b
      · simp only [hfil] at h
        exact Except.noConfusion h
      · simp only [hfil] at h
        cases b
        · exact (ih _ _ _ h).trans (Nat.le_succ _)
        · rcases hpre : spec.preprocess_dir w d with e | ⟨d2, w1⟩
          · simp only [hpre] at h
            exact Except.noConfusion h
          · simp only [hpre] at h
            rcases hload : spec.load_payload w1 d2 with e | ⟨pl, w2⟩
            · simp only [hload] at h
              exact Except.noConfusion h
            · simp only [hload] at h
              rcases hrec : recur (some (behavior_node_factory (lastName d2) d2
                  spec.level parent pl)) d2 w2 with e | ⟨children, w3⟩
              · simp only [hrec] at h
                exact Except.noConfusion h
              · simp only [hrec] at h
                rcases hgo : buildGo spec recur parent ds w3 with e | ⟨nodes1, w4⟩
                · simp only [hgo] at h
                  exact Except.noConfusion h
                · simp only [hgo, Except.ok.injEq, Prod.mk.injEq] at h
                  rcases h with ⟨hnodes, hw⟩
                  rw [← hnodes]
                  simpa using Nat.succ_le_succ (ih _ _ _ hgo)

theorem buildGo_cons_inv {E : Type} {spec : LevelSpec E}
    {recur : Option (NodeData E) → FsPath → World → Except PyErr (List (HTree E) × World)}
    {parent : Option (NodeData E)} {d : FsPath} {ds : List FsPath} {w : World}
    {nodes : List (HTree E)} {w' : World}
    (h : buildGo spec recur parent (d :: ds) w = .ok (nodes, w')) :
    (((!(isDir w.fs d)) = true ∨ spec.filter_dir w d = .ok false) ∧
      buildGo spec recur parent ds w = .ok (nodes, w')) ∨
    (∃ d2 w1 pl w2 children w3 nodes1,
      isDir w.fs d = true ∧ spec.filter_dir w d = .ok true ∧
      spec.preprocess_dir w d = .ok (d2, w1) ∧
      spec.load_payload w1 d2 = .ok (pl, w2) ∧
      recur (some (behavior_node_factory (lastName d2) d2 spec.level parent pl)) d2 w2
        = .ok (children, w3) ∧
      buildGo spec recur parent ds w3 = .ok (nodes1, w') ∧
      nodes = HTree.node (behavior_node_factory (lastName d2) d2 spec.level parent pl)
        children :: nodes1) := by
  simp only [buildGo] at h
  by_cases hdir : (!(isDir w.fs d)) = true
  · rw [if_pos hdir] at h
    exact Or.inl ⟨Or.inl hdir, h⟩
  · rw [if_neg hdir] at h
    have hdir' : isDir w.fs d = true := by
      rcases hb : isDir w.fs d
      · exact absurd (by simp [hb]) hdir
      · rfl
    rcases hfil : spec.filter_dir w d with e | b
    · simp only [hfil] at h
      exact Except.noConfusion h
    · simp only [hfil] at h
      cases b
      · exact Or.inl ⟨Or.inr rfl, h⟩
      · rcases hpre : spec.preprocess_dir w d with e | ⟨d2, w1⟩
        · simp only [hpre] at h
          exact Except.noConfusion h
        · simp only [hpre] at h
          rcases hload : spec.load_payload w1 d2 with e | ⟨pl, w2⟩
          · simp only [hload] at h
            exact Except.noConfusion h
          · simp only [hload] at h
            rcases hrec : recur (some (behavior_node_factory (lastName d2) d2
                spec.level parent pl)) d2 w2 with e | ⟨children, w3⟩
            · simp only [hrec] at h
              exact Except.noConfusion h
            · simp only [hrec] at h
              rcases hgo : buildGo spec recur parent ds w3 with e | ⟨nodes1, w4⟩
              · simp only [hgo] at h
                exact Except.noConfusion h
              · simp only [hgo, Except.ok.injEq, Prod.mk.injEq] at h
                rcases h with ⟨hnodes, hw⟩
                exact Or.inr ⟨d2, w1, pl, w2, children, w3, nodes1,
                  hdir', rfl, rfl, hload, hrec, by rw [hw] at hgo; exact hgo, hnodes.symm⟩

theorem buildGo_paths_sublist {E : Type} {spec : LevelSpec E}
    {recur : Option (NodeData E) → FsPath → World → Except PyErr (List (HTree E) × World)}
    {parent : Option (NodeData E)}
    (hid : ∀ (w2 : World) (d : FsPath), spec.preprocess_dir w2 d = .ok (d, w2)) :
    ∀ (ds : List FsPath) (w : World) (nodes : List (HTree E)) (w' : World),
      buildGo spec recur parent ds w = .ok (nodes, w') →
      (nodes.map (fun t => t.data.path)).Sublist ds := by
  intro ds
  induction ds with
  | nil =>
    intro w nodes w' h
    simp only [buildGo] at h
    cases h
    simp
  | cons d ds ih =>
    intro w nodes w' h
    rcases buildGo_cons_inv h with ⟨_, hgo⟩ |
      ⟨d2, w1, pl, w2, children, w3, nodes1, _, _, hpre, _, _, hgo, hnodes⟩
    · exact List.Sublist.cons d (ih _ _ _ hgo)
    · have hid' := hid w d
      rw [hid'] at hpre
      cases hpre
      rw [hnodes]
      simp only [List.map_cons]
      exact List.cons_sublist_cons.mpr (ih _ _ _ hgo)

theorem buildGo_top_facts {E : Type} {spec : LevelSpec E}
    {recur : Option (NodeData E) → FsPath → World → Except PyErr (List (HTree E) × World)}
    {parent : Option (NodeData E)} :
    ∀ (ds : List FsPath) (w : World) (nodes : List (HTree E)) (w' : World),
      buildGo spec recur parent ds w = .ok (nodes, w') →
      ∀ t ∈ nodes, t.data.name = lastName t.data.path ∧ t.data.level = spec.level ∧
        t.data.ancestors = childChain parent ∧
        ∃ w1 dd w2, spec.preprocess_dir w1 dd = .ok (t.data.path, w2) := by
  intro ds
  induction ds with
  | nil =>
    intro w nodes w' h
    simp only [buildGo] at h
    cases h
    simp
  | cons d ds ih =>
    intro w nodes w' h t ht
    rcases buildGo_cons_inv h with ⟨_, hgo⟩ |
      ⟨d2, w1, pl, w2, children, w3, nodes1, _, _, hpre, _, _, hgo, hnodes⟩
    · exact ih _ _ _ hgo t ht
    · rw [hnodes] at ht
      rcases List.mem_cons.mp ht with rfl | ht1
      · exact ⟨rfl, rfl, rfl, w, d, w1, hpre⟩
      · exact ih _ _ _ hgo t ht1

/-- C5: at each depth the builder enumerates exactly the matching child
entries of the current base, sorted lexicographically by name; the sibling
nodes then follow that enumeration order (shown for rules whose
normalization is the identity, as at every level where no rename can
change a name: their paths form an order-preserving sublist of the sorted
enumeration, so their names are sorted); and the build is a function of
the filesystem state, so two builds on equal states give equal node
orderings. -/
theorem enumeration_sorted_deterministic :
    (∀ (fs : Fs) (base : FsPath) (pat : DirName),
      (globSorted fs base pat).Sorted nameLe ∧
      ∀ q, q ∈ globSorted fs base pat ↔
        (q ∈ fs.dirs ++ fs.files ∧ q.length = base.length + 1 ∧ q.dropLast = base ∧
          globMatch pat (lastName q) = true)) ∧
    (∀ (E : Type) (spec : LevelSpec E) (rest : List (LevelSpec E)) parent base w
        (nodes : List (HTree E)) (w' : World),
      (∀ (w2 : World) (d : FsPath), spec.preprocess_dir w2 d = .ok (d, w2)) →
      buildLevel (spec :: rest) parent base w = .ok (nodes, w') →
      (nodes.map (fun t => t.data.path)).Sublist (globSorted w.fs base spec.pattern) ∧
      (nodes.map (fun t => t.data.name)).Sorted (fun a b => a ≤ b)) ∧
    (∀ (E : Type) (specs : List (LevelSpec E)) (root : FsPath) (w1 w2 : World), w1 = w2 →
      build_tree_generic root specs w1 = build_tree_generic root specs w2) := by
  refine ⟨fun fs base pat => ⟨List.sorted_insertionSort nameLe _, fun q => mem_globSorted⟩,
    ?_, fun E specs root w1 w2 h => by rw [h]⟩
  intro E spec rest parent base w nodes w' hid hb
  have hb' : buildGo spec (fun p b w2 => buildLevel rest p b w2) parent
      (globSorted w.fs base spec.pattern) w = .ok (nodes, w') := hb
  have hsub := buildGo_paths_sublist hid _ _ _ _ hb'
  refine ⟨hsub, ?_⟩
  have hsorted : (nodes.map (fun t => t.data.path)).Sorted nameLe :=
    (List.sorted_insertionSort nameLe _).sublist hsub
  have hname : ∀ t ∈ nodes, t.data.name = lastName t.data.path := by
    intro t ht
    exact (buildGo_top_facts _ _ _ _ hb' t ht).1
  have hmapeq : nodes.map (fun t => t.data.name)
      = (nodes.map (fun t => t.data.path)).map lastName := by
    rw [List.map_map]
    exact List.map_congr_left hname
  rw [hmapeq]
  rw [List.Sorted, List.pairwise_map]
  exact hsorted

theorem enumeration_sorted_deterministic_witness :
    ((globSorted scenarioFs [] "cond*".data).Sorted nameLe ∧
     (["cond_A".data] ∈ globSorted scenarioFs [] "cond*".data ↔
       (["cond_A".data] ∈ scenarioFs.dirs ++ scenarioFs.files ∧
        ([("cond_A".data : DirName)] : FsPath).length = ([] : FsPath).length + 1 ∧
        ([("cond_A".data : DirName)] : FsPath).dropLast = ([] : FsPath) ∧
        globMatch "cond*".data (lastName [("cond_A".data : DirName)]) = true))) ∧
    ((∀ (w2 : World) (d : FsPath), (@make_cond_spec Nat).preprocess_dir w2 d = .ok (d, w2)) ∧
     buildLevel [@make_cond_spec Nat] none [] scenarioWorld = .ok (condForest, scenarioWorld) ∧
     (condForest.map (fun t => t.data.path)).Sublist
        (globSorted scenarioWorld.fs [] (@make_cond_spec Nat).pattern) ∧
     (condForest.map (fun t => t.data.name)).Sorted (fun a b => a ≤ b)) := by
  refine ⟨⟨(enumeration_sorted_deterministic.1 scenarioFs [] "cond*".data).1,
    (enumeration_sorted_deterministic.1 scenarioFs [] "cond*".data).2 _⟩, ?_⟩
  have hid : ∀ (w2 : World) (d : FsPath),
      (@make_cond_spec Nat).preprocess_dir w2 d = .ok (d, w2) := fun _ _ => rfl
  have hb : buildLevel [@make_cond_spec Nat] none [] scenarioWorld
      = .ok (condForest, scenarioWorld) := rfl
  exact ⟨hid, hb, enumeration_sorted_deterministic.2.1 Nat make_cond_spec [] none []
    scenarioWorld condForest scenarioWorld hid hb⟩

/-- C10: the builder computes the full sorted candidate list of a level
from the filesystem as it stands before the level runs, and only then
iterates it (the unfolding is definitional); a successful iteration
yields at most one node per listed candidate, so nothing a
`preprocess_dir` rename creates can enter the enumerated sibling set, nor
can anything leave it: concretely, building the day level over
`{day001, day002_}` renames `day001` mid-level, after which the renamed
directory also matches `day*`, yet the build yields exactly the two nodes
of the original enumeration. -/
theorem candidate_list_materialised :
    (∀ (E : Type) (spec : LevelSpec E) (rest : List (LevelSpec E)) parent base w,
      buildLevel (spec :: rest) parent base w
        = buildGo spec (fun p b w2 => buildLevel rest p b w2) parent
            (globSorted w.fs base spec.pattern) w) ∧
    (∀ (E : Type) (spec : LevelSpec E)
        (recur : Option (NodeData E) → FsPath → World → Except PyErr (List (HTree E) × World))
        parent ds w (nodes : List (HTree E)) (w' : World),
      buildGo spec recur parent ds w = .ok (nodes, w') → nodes.length ≤ ds.length) ∧
    (globSorted mouseWorld.fs ["mouse_1".data] "day*".data
      = [["mouse_1".data, "day001".data], ["mouse_1".data, "day002_".data]] ∧
     buildLevel [make_day_spec (some param0)] none ["mouse_1".data] mouseWorld
      = .ok (dayForest, dayWorldAfter) ∧
     globSorted dayWorldAfter.fs ["mouse_1".data] "day*".data
      = [["mouse_1".data, "day001_".data], ["mouse_1".data, "day002_".data]] ∧
     dayForest.length = 2) := by
  exact ⟨fun E spec rest parent base w => rfl,
    fun E spec recur parent ds w nodes w' h => buildGo_length_le spec recur parent ds w nodes w' h,
    by decide, rfl, by decide, rfl⟩

theorem candidate_list_materialised_witness :
    buildGo (make_day_spec (some param0)) (fun p b w2 => buildLevel [] p b w2) none
      (globSorted mouseWorld.fs ["mouse_1".data] "day*".data) mouseWorld
      = .ok (dayForest, dayWorldAfter) ∧
    dayForest.length ≤ (globSorted mouseWorld.fs ["mouse_1".data] "day*".data).length := by
  have hb : buildGo (make_day_spec (some param0)) (fun p b w2 => buildLevel [] p b w2) none
      (globSorted mouseWorld.fs ["mouse_1".data] "day*".data) mouseWorld
      = .ok (dayForest, dayWorldAfter) := rfl
  exact ⟨hb, candidate_list_materialised.2.1 Nat (make_day_spec (some param0)) _ none
    _ mouseWorld dayForest dayWorldAfter hb⟩

mutual
theorem subtreesT_size {E : Type} : ∀ (t : HTree E), ∀ u ∈ subtreesT t, sizeT u < sizeT t
  | .node d cs => by
    intro u hu
    simp only [subtreesT] at hu
    have h := subForest_size cs u hu
    simp only [sizeT]
    omega

theorem subForest_size {E : Type} : ∀ (ts : List (HTree E)), ∀ u ∈ subForest ts, sizeT u ≤ sizeF ts
  | [] => by
    intro u hu
    simp [subForest] at hu
  | t :: ts => by
    intro u hu
    simp only [subForest, List.mem_cons, List.mem_append] at hu
    rcases hu with rfl | hu | hu
    · simp only [sizeF]
      omega
    · have h := subtreesT_size t u hu
      simp only [sizeF]
      omega
    · have h := subForest_size ts u hu
      simp only [sizeF]
      omega
end

theorem factory_parent {E : Type} (name : DirName) (path : FsPath) (level : DirName)
    (parent : Option (NodeData E)) (pl : Payload E) :
    (behavior_node_factory name path level parent pl).parent = parent := by
  cases parent <;> rfl

theorem buildGo_parentOk {E : Type} [DecidableEq E] {spec : LevelSpec E}
    {recur : Option (NodeData E) → FsPath → World → Except PyErr (List (HTree E) × World)}
    {parent : Option (NodeData E)}
    (hrec : ∀ p b w2 ns w3, recur p b w2 = .ok (ns, w3) → parentOkF p ns = true) :
    ∀ (ds : List FsPath) (w : World) (nodes : List (HTree E)) (w' : World),
      buildGo spec recur parent ds w = .ok (nodes, w') →
      parentOkF parent nodes = true := by
  intro ds
  induction ds with
  | nil =>
    intro w nodes w' h
    simp only [buildGo] at h
    cases h
    rfl
  | cons d ds ih =>
    intro w nodes w' h
    rcases buildGo_cons_inv h with ⟨_, hgo⟩ |
      ⟨d2, w1, pl, w2, children, w3, nodes1, _, _, _, _, hrec1, hgo, hnodes⟩
    · exact ih _ _ _ hgo
    · rw [hnodes]
      simp only [parentOkF, parentOkT, Bool.and_eq_true, beq_iff_eq]
      exact ⟨⟨factory_parent _ _ _ _ _, hrec _ _ _ _ _ hrec1⟩, ih _ _ _ hgo⟩

theorem buildLevel_parentOk {E : Type} [DecidableEq E] :
    ∀ (specs : List (LevelSpec E)) (parent : Option (NodeData E)) (base : FsPath)
      (w : World) (nodes : List (HTree E)) (w' : World),
      buildLevel specs parent base w = .ok (nodes, w') → parentOkF parent nodes = true := by
  intro specs
  induction specs with
  | nil =>
    intro parent base w nodes w' h
    simp only [buildLevel] at h
    cases h
    rfl
  | cons spec rest ih =>
    intro parent base w nodes w' h
    exact buildGo_parentOk (fun p b w2 ns w3 hr => ih p b w2 ns w3 hr) _ _ _ _ h

theorem buildGo_preF_facts {E : Type} {spec : LevelSpec E}
    {recur : Option (NodeData E) → FsPath → World → Except PyErr (List (HTree E) × World)}
    {parent : Option (NodeData E)} {Q : NodeData E → Prop}
    (hrec : ∀ p b w2 ns w3, recur p b w2 = .ok (ns, w3) → ∀ nd ∈ preF ns, Q nd) :
    ∀ (ds : List FsPath) (w : World) (nodes : List (HTree E)) (w' : World),
      buildGo spec recur parent ds w = .ok (nodes, w') →
      ∀ nd ∈ preF nodes,
        (nd.name = lastName nd.path ∧ nd.level = spec.level ∧
          ∃ w1 dd w2, spec.preprocess_dir w1 dd = .ok (nd.path, w2)) ∨ Q nd := by
  intro ds
  induction ds with
  | nil =>
    intro w nodes w' h
    simp only [buildGo] at h
    cases h
    intro nd hnd
    simp [preF] at hnd
  | cons d ds ih =>
    intro w nodes w' h nd hnd
    rcases buildGo_cons_inv h with ⟨_, hgo⟩ |
      ⟨d2, w1, pl, w2, children, w3, nodes1, _, _, hpre, _, hrec1, hgo, hnodes⟩
    · exact ih _ _ _ hgo nd hnd
    · rw [hnodes] at hnd
      simp only [preF, preT, List.cons_append, List.mem_cons, List.mem_append] at hnd
      rcases hnd with rfl | hnd | hnd
      · exact Or.inl ⟨rfl, rfl, w, d, w1, hpre⟩
      · exact Or.inr (hrec _ _ _ _ _ hrec1 nd hnd)
      · exact ih _ _ _ hgo nd hnd

theorem buildLevel_preF_facts {E : Type} :
    ∀ (specs : List (LevelSpec E)) (parent : Option (NodeData E)) (base : FsPath)
      (w : World) (nodes : List (HTree E)) (w' : World),
      buildLevel specs parent base w = .ok (nodes, w') →
      ∀ nd ∈ preF nodes, NodeFacts specs nd := by
  intro specs
  induction specs with
  | nil =>
    intro parent base w nodes w' h
    simp only [buildLevel] at h
    cases h
    intro nd hnd
    simp [preF] at hnd
  | cons spec rest ih =>
    intro parent base w nodes w' h nd hnd
    rcases buildGo_preF_facts
        (fun p b w2 ns w3 hr => ih p b w2 ns w3 hr) _ _ _ _ h nd hnd with
      ⟨h1, h2, hex⟩ | ⟨h1, spec', hs', hrest⟩
    · exact ⟨h1, spec, List.mem_cons_self spec rest, h2, hex⟩
    · exact ⟨h1, spec', List.mem_cons_of_mem spec hs', hrest⟩

/-- C8: a successfully built forest is parent/children consistent (roots
record no parent; every child records exactly the node it hangs under),
no tree occurs among its own proper descendants (the structure is acyclic,
and being a finite list of finitely-branching trees it is finite), and
every node's path is a path returned by its level rule's `preprocess_dir`
with its name the final component of that path — never the
pre-normalization name. -/
theorem built_forest_invariants {E : Type} [DecidableEq E]
    (specs : List (LevelSpec E)) (root : FsPath) (w : World)
    (roots : List (HTree E)) (w' : World)
    (h : build_tree_generic root specs w = .ok (roots, w')) :
    parentOkF none roots = true ∧
    (∀ t ∈ subForest roots, t ∉ subtreesT t) ∧
    (∀ nd ∈ preF roots, nd.name = lastName nd.path ∧
      ∃ spec ∈ specs, nd.level = spec.level ∧
        ∃ w1 dd w2, spec.preprocess_dir w1 dd = .ok (nd.path, w2)) := by
  refine ⟨buildLevel_parentOk specs none root w roots w' h, ?_,
    fun nd hnd => buildLevel_preF_facts specs none root w roots w' h nd hnd⟩
  intro t _ hcontra
  exact absurd (subtreesT_size t t hcontra) (lt_irrefl _)

theorem built_forest_invariants_witness :
    build_tree_generic ([] : FsPath)
      [make_cond_spec, make_mouse_spec, make_day_spec (some param0)] scenarioWorld
      = .ok (scenarioBuilt.1, scenarioBuilt.2) ∧
    parentOkF none scenarioBuilt.1 = true ∧
    (∀ t ∈ subForest scenarioBuilt.1, t ∉ subtreesT t) ∧
    (∀ nd ∈ preF scenarioBuilt.1, nd.name = lastName nd.path ∧
      ∃ spec ∈ [@make_cond_spec Nat, make_mouse_spec, make_day_spec (some param0)],
        nd.level = spec.level ∧
        ∃ w1 dd w2, spec.preprocess_dir w1 dd = .ok (nd.path, w2)) := by
  have hb : build_tree_generic ([] : FsPath)
      [make_cond_spec, make_mouse_spec, make_day_spec (some param0)] scenarioWorld
      = .ok (scenarioBuilt.1, scenarioBuilt.2) := rfl
  have h := built_forest_invariants _ _ _ _ _ hb
  exact ⟨hb, h.1, h.2.1, h.2.2⟩

/-- C1 (counterexample): on the scenario layout the build as written
produces no tree at all.  The generic builder under the module's own
`[cond*, *, day*]` rules raises `NameError` at the first day directory,
because the day rule's callbacks read the undefined module global
`param`; and the `build_behavior_tree` entry point raises `TypeError`
even earlier, passing the builder an `analysis_param` keyword its
signature does not declare.  In particular it does not yield 2 root
nodes. -/
theorem behavior_scenario_as_written_fails :
    buildLevel (@behaviorSpecsAsWritten Nat) none [] scenarioWorld
      = .error (.nameError "param".data) ∧
    @build_behavior_tree Nat [] scenarioWorld
      = .error (.typeError "unexpected keyword argument analysis_param".data) :=
  ⟨rfl, rfl⟩

/-- C1 (amended): with the analysis parameter actually supplied to the day
rule (the evident intent of the undefined global `param`), the scenario
build yields exactly 2 roots; `cond_A` has the single child `mouse_1`
whose children are on disk and in the tree `day001_` and `day002_` (the
already-suffixed name untouched); and the depth-first pre-order name
sequence is `cond_A, mouse_1, day001_, day002_, cond_B, mouse_X, day100_`
— the final node is `day100_`, not `day100`, since `day100` lacks the
separator and is renamed like any other unsuffixed day directory. -/
theorem behavior_scenario_intended :
    build_behavior_tree_spec param0 [] scenarioWorld = .ok (scenarioBuilt.1, scenarioBuilt.2) ∧
    scenarioBuilt.1.length = 2 ∧
    (preF scenarioBuilt.1).map NodeData.name
      = ["cond_A".data, "mouse_1".data, "day001_".data, "day002_".data,
         "cond_B".data, "mouse_X".data, "day100_".data] ∧
    scenarioBuilt.1.map (fun t => t.data.name) = ["cond_A".data, "cond_B".data] ∧
    scenarioBuilt.1.map (fun t => t.children.map (fun c => c.data.name))
      = [["mouse_1".data], ["mouse_X".data]] ∧
    scenarioBuilt.1.map (fun t => t.children.map (fun c => c.children.map (fun g => g.data.name)))
      = [[["day001_".data, "day002_".data]], [["day100_".data]]] ∧
    scenarioBuilt.2.fs.dirs
      = [["cond_A".data],
         ["cond_A".data, "mouse_1".data],
         ["cond_A".data, "mouse_1".data, "day001_".data],
         ["cond_A".data, "mouse_1".data, "day002_".data],
         ["cond_B".data],
         ["cond_B".data, "mouse_X".data],
         ["cond_B".data, "mouse_X".data, "day100_".data]] := by
  refine ⟨rfl, rfl, by decide, by decide, by decide, by decide, by decide⟩

theorem fileLoop_total {C E : Type} {k : GenericKernel C E} {ctx : C} (i : Nat)
    (d : NodeData E) (hof : ∀ f, k.on_file ctx d f = .ok ()) :
    ∀ files, fileLoop k ctx i d files = (files.map (fun f => Event.fileEv i d f), none) := by
  intro files
  induction files with
  | nil => rfl
  | cons f rest ih => simp [fileLoop, hof f, ih]

theorem kernelLoop_total {C E : Type} {ctx : C} {fs : Fs} {d : NodeData E} :
    ∀ (iks : List (Nat × GenericKernel C E)),
      (∀ ik ∈ iks, KernelTotal ik.2 ctx) →
      kernelLoop ctx fs d iks = (nodeBlock iks fs d, none) := by
  intro iks
  induction iks with
  | nil => intro _; rfl
  | cons ik iks ih =>
    intro h
    obtain ⟨i, k⟩ := ik
    have hk : KernelTotal k ctx := h (i, k) (List.mem_cons_self _ _)
    have htail := ih (fun x hx => h x (List.mem_cons_of_mem _ hx))
    by_cases hp : (k.retrieve_file_with_pattern d).isEmpty
    · have hp' : k.retrieve_file_with_pattern d = [] := by simpa using hp
      simp [kernelLoop, hk.2.1 d, hp, hp', htail, nodeBlock, fileEvents]
    · have hp' : ¬(k.retrieve_file_with_pattern d = []) := by simpa using hp
      simp [kernelLoop, hk.2.1 d, hp, hp', htail, nodeBlock, fileEvents,
        fileLoop_total i d (fun f => hk.2.2.1 d f)]

mutual
theorem walk_node_total {C E : Type} (iks : List (Nat × GenericKernel C E)) (ctx : C)
    (fs : Fs) (h : ∀ ik ∈ iks, KernelTotal ik.2 ctx) :
    ∀ (t : HTree E), walk_node iks ctx fs t = ((preT t).flatMap (nodeBlock iks fs), none)
  | .node d cs => by
    simp only [walk_node]
    rw [kernelLoop_total iks h, walk_forest_total iks ctx fs h cs]
    simp [preT]

theorem walk_forest_total {C E : Type} (iks : List (Nat × GenericKernel C E)) (ctx : C)
    (fs : Fs) (h : ∀ ik ∈ iks, KernelTotal ik.2 ctx) :
    ∀ (ts : List (HTree E)), walk_forest iks ctx fs ts = ((preF ts).flatMap (nodeBlock iks fs), none)
  | [] => rfl
  | t :: ts => by
    simp only [walk_forest]
    rw [walk_node_total iks ctx fs h t, walk_forest_total iks ctx fs h ts]
    simp [preF]
end

theorem startLoop_total {C E : Type} {ctx : C} {roots : List (HTree E)} :
    ∀ (iks : List (Nat × GenericKernel C E)),
      (∀ ik ∈ iks, KernelTotal ik.2 ctx) →
      startLoop ctx roots iks = (iks.map (fun ik => Event.projStart ik.1), none) := by
  intro iks
  induction iks with
  | nil => intro _; rfl
  | cons ik iks ih =>
    intro h
    have hk := h ik (List.mem_cons_self _ _)
    simp [startLoop, hk.1 roots, ih (fun x hx => h x (List.mem_cons_of_mem _ hx))]

theorem endLoop_total {C E : Type} {ctx : C} {roots : List (HTree E)} :
    ∀ (iks : List (Nat × GenericKernel C E)),
      (∀ ik ∈ iks, KernelTotal ik.2 ctx) →
      endLoop ctx roots iks = (iks.map (fun ik => Event.projEnd ik.1), none) := by
  intro iks
  induction iks with
  | nil => intro _; rfl
  | cons ik iks ih =>
    intro h
    have hk := h ik (List.mem_cons_self _ _)
    simp [endLoop, hk.2.2.2 roots, ih (fun x hx => h x (List.mem_cons_of_mem _ hx))]

theorem kernelTotal_of_mem_enum {C E : Type} {kernels : List (GenericKernel C E)} {ctx : C}
    (h : ∀ k ∈ kernels, KernelTotal k ctx) :
    ∀ ik ∈ kernels.enum, KernelTotal ik.2 ctx := by
  intro ik hik
  apply h
  have hg : kernels[ik.1]? = some ik.2 := by
    have := List.mem_enum_iff_getElem?.mp hik
    exact this
  exact List.mem_iff_getElem?.mpr ⟨ik.1, hg⟩

theorem crawl_total {C E : Type} (kernels : List (GenericKernel C E)) (ctx : C) (fs : Fs)
    (roots : List (HTree E)) (h : ∀ k ∈ kernels, KernelTotal k ctx) :
    crawl_from_nodes kernels ctx fs roots = (crawlEvents kernels fs roots, none) := by
  have he := kernelTotal_of_mem_enum h
  simp only [crawl_from_nodes]
  rw [startLoop_total _ he, walk_forest_total _ _ _ he roots, endLoop_total _ he]
  simp [crawlEvents]

theorem countP_fileEvents {C E : Type} (i : Nat) (k : GenericKernel C E) (fs : Fs)
    (d : NodeData E) : (fileEvents i k fs d).countP isNodeEv = 0 := by
  rw [List.countP_eq_zero]
  intro a ha
  simp only [fileEvents] at ha
  split at ha
  · simp at ha
  · rcases List.mem_map.mp ha with ⟨f, _, rfl⟩
    simp [isNodeEv]

theorem countP_nodeBlock {C E : Type} (iks : List (Nat × GenericKernel C E)) (fs : Fs)
    (d : NodeData E) : (nodeBlock iks fs d).countP isNodeEv = iks.length := by
  induction iks with
  | nil => rfl
  | cons ik iks ih =>
    simp only [nodeBlock, List.flatMap_cons, List.countP_append, List.countP_cons] at *
    simp only [isNodeEv, countP_fileEvents, ih, List.countP_cons]
    simp [isNodeEv]
    omega

theorem countP_flatMap_nodeBlock {C E : Type} (iks : List (Nat × GenericKernel C E)) (fs : Fs) :
    ∀ (l : List (NodeData E)),
      (l.flatMap (nodeBlock iks fs)).countP isNodeEv = l.length * iks.length := by
  intro l
  induction l with
  | nil => simp
  | cons d l ih =>
    simp only [List.flatMap_cons, List.countP_append, countP_nodeBlock, ih, List.length_cons]
    ring

/-- C2: a throw-free crawl over a forest of `M` nodes with `N` registered
Observers performs exactly the `on_project_start` round in registration
order, then one block per node in depth-first pre-order — inside which
every Observer, in registration order, gets its `on_node` call (and file
calls) before any Observer sees the next node — then the
`on_project_end` round; `on_node` is called exactly `M × N` times, and an
empty forest produces exactly the start round followed by the end
round with zero node visits. -/
theorem crawler_dispatch_cardinality {C E : Type} (kernels : List (GenericKernel C E))
    (ctx : C) (fs : Fs) (roots : List (HTree E))
    (h : ∀ k ∈ kernels, KernelTotal k ctx) :
    crawl_from_nodes kernels ctx fs roots
      = (kernels.enum.map (fun ik => Event.projStart ik.1)
          ++ (preF roots).flatMap (nodeBlock kernels.enum fs)
          ++ kernels.enum.map (fun ik => Event.projEnd ik.1), none) ∧
    (crawl_from_nodes kernels ctx fs roots).1.countP isNodeEv
      = (preF roots).length * kernels.length ∧
    (roots = [] → crawl_from_nodes kernels ctx fs roots
      = (kernels.enum.map (fun ik => Event.projStart ik.1)
          ++ kernels.enum.map (fun ik => Event.projEnd ik.1), none)) := by
  have hc := crawl_total kernels ctx fs roots h
  refine ⟨hc, ?_, ?_⟩
  · rw [hc]
    simp only [crawlEvents, List.countP_append, countP_flatMap_nodeBlock]
    have h1 : (kernels.enum.map (fun ik => (Event.projStart ik.1 : Event E))).countP isNodeEv = 0 := by
      rw [List.countP_eq_zero]
      intro a ha
      rcases List.mem_map.mp ha with ⟨ik, _, rfl⟩
      simp [isNodeEv]
    have h2 : (kernels.enum.map (fun ik => (Event.projEnd ik.1 : Event E))).countP isNodeEv = 0 := by
      rw [List.countP_eq_zero]
      intro a ha
      rcases List.mem_map.mp ha with ⟨ik, _, rfl⟩
      simp [isNodeEv]
    rw [h1, h2, List.enum_length]
    omega
  · intro hr
    subst hr
    rw [hc]
    simp [crawlEvents, preF]

theorem crawler_dispatch_cardinality_witness :
    (∀ k ∈ [kernelQuiet, kernelFiles], KernelTotal k ()) ∧
    crawl_from_nodes [kernelQuiet, kernelFiles] () crawlFs forest2
      = (crawlEvents [kernelQuiet, kernelFiles] crawlFs forest2, none) ∧
    (crawl_from_nodes [kernelQuiet, kernelFiles] () crawlFs forest2).1.countP isNodeEv = 3 * 2 ∧
    crawl_from_nodes [kernelQuiet, kernelFiles] () crawlFs ([] : List (HTree Nat))
      = ([Event.projStart 0, Event.projStart 1, Event.projEnd 0, Event.projEnd 1], none) := by
  have hk : ∀ k ∈ [kernelQuiet, kernelFiles], KernelTotal k () := by
    intro k hkm
    simp only [List.mem_cons, List.not_mem_nil, or_false] at hkm
    rcases hkm with rfl | rfl
    · exact ⟨fun _ => rfl, fun _ => rfl, fun _ _ => rfl, fun _ => rfl⟩
    · exact ⟨fun _ => rfl, fun _ => rfl, fun _ _ => rfl, fun _ => rfl⟩
  have h := crawler_dispatch_cardinality [kernelQuiet, kernelFiles] () crawlFs forest2 hk
  have hempty := (crawler_dispatch_cardinality [kernelQuiet, kernelFiles] () crawlFs
    ([] : List (HTree Nat)) hk).2.2 rfl
  exact ⟨hk, h.1, h.2.1.trans (by decide), hempty.trans (by decide)⟩

/-- C9: during a throw-free crawl each node is dispatched as one block per
Observer in registration order: the `on_node` call followed by that
Observer's file calls — none at all when its file pattern is the empty
string, and otherwise exactly one `on_file` call per file matched by
globbing the node's path with the pattern, in lexicographically sorted
order; the whole crawl is the start round, these blocks in pre-order, and
the end round. -/
theorem file_dispatch_per_node {C E : Type} (ctx : C) (fs : Fs) (d : NodeData E)
    (iks : List (Nat × GenericKernel C E)) (h : ∀ ik ∈ iks, KernelTotal ik.2 ctx) :
    kernelLoop ctx fs d iks = (nodeBlock iks fs d, none) ∧
    (∀ ik ∈ iks,
      (ik.2.retrieve_file_with_pattern d).isEmpty = true → fileEvents ik.1 ik.2 fs d = []) ∧
    (∀ ik ∈ iks,
      (ik.2.retrieve_file_with_pattern d).isEmpty = false →
      fileEvents ik.1 ik.2 fs d
        = (globSorted fs d.path (ik.2.retrieve_file_with_pattern d)).map
            (fun f => Event.fileEv ik.1 d f) ∧
      (globSorted fs d.path (ik.2.retrieve_file_with_pattern d)).Sorted nameLe) ∧
    (∀ (kernels : List (GenericKernel C E)) (roots : List (HTree E)),
      (∀ k ∈ kernels, KernelTotal k ctx) →
      crawl_from_nodes kernels ctx fs roots = (crawlEvents kernels fs roots, none)) := by
  refine ⟨kernelLoop_total iks h, ?_, ?_,
    fun kernels roots hks => crawl_total kernels ctx fs roots hks⟩
  · intro ik _ hp
    simp [fileEvents, hp]
  · intro ik _ hp
    exact ⟨by simp [fileEvents, hp], List.sorted_insertionSort nameLe _⟩

theorem file_dispatch_per_node_witness :
    (∀ ik ∈ [(0, kernelQuiet), (1, kernelFiles)], KernelTotal ik.2 ()) ∧
    kernelLoop () crawlFs node1 [(0, kernelQuiet), (1, kernelFiles)]
      = (nodeBlock [(0, kernelQuiet), (1, kernelFiles)] crawlFs node1, none) ∧
    ((kernelQuiet.retrieve_file_with_pattern node1).isEmpty = true ∧
      fileEvents 0 kernelQuiet crawlFs node1 = []) ∧
    ((kernelFiles.retrieve_file_with_pattern node1).isEmpty = false ∧
      fileEvents 1 kernelFiles crawlFs node1
        = [Event.fileEv 1 node1 ["d1".data, "a.csv".data],
           Event.fileEv 1 node1 ["d1".data, "b.csv".data]]) := by
  have hks : ∀ ik ∈ [((0 : Nat), kernelQuiet), (1, kernelFiles)], KernelTotal ik.2 () := by
    intro ik hik
    simp only [List.mem_cons, List.not_mem_nil, or_false] at hik
    rcases hik with rfl | rfl
    · exact ⟨fun _ => rfl, fun _ => rfl, fun _ _ => rfl, fun _ => rfl⟩
    · exact ⟨fun _ => rfl, fun _ => rfl, fun _ _ => rfl, fun _ => rfl⟩
  have h := file_dispatch_per_node () crawlFs node1 [(0, kernelQuiet), (1, kernelFiles)] hks
  refine ⟨hks, h.1, ⟨rfl, h.2.1 (0, kernelQuiet) (by simp) rfl⟩, ⟨rfl, ?_⟩⟩
  have h2 := (h.2.2.1 (1, kernelFiles) (by simp) rfl).1
  rw [h2]
  decide

theorem ranOk_nil {E : Type} (R : Event E → Except PyErr Unit) : RanOk R ([], none) := by
  intro ev hev
  exact absurd hev (List.not_mem_nil ev)

theorem ranOk_prepend {E : Type} {R : Event E → Except PyErr Unit} {evs1 : List (Event E)}
    (h1 : ∀ ev ∈ evs1, R ev = .ok ()) {p : List (Event E) × Option PyErr}
    (h2 : RanOk R p) : RanOk R (evs1 ++ p.1, p.2) := by
  obtain ⟨evs2, r⟩ := p
  cases r with
  | none =>
    intro ev hev
    rcases List.mem_append.mp hev with hm | hm
    · exact h1 ev hm
    · exact h2 ev hm
  | some e =>
    obtain ⟨pre, ev, heq, hpre, herr⟩ := h2
    refine ⟨evs1 ++ pre, ev, ?_, ?_, herr⟩
    · simp only [heq, List.append_assoc]
    · intro x hx
      rcases List.mem_append.mp hx with hm | hm
      · exact h1 x hm
      · exact hpre x hm

theorem ranOk_single_error {E : Type} {R : Event E → Except PyErr Unit} {ev : Event E}
    {e : PyErr} (h : R ev = .error e) : RanOk R ([ev], some e) :=
  ⟨[], ev, rfl, by intro x hx; exact absurd hx (List.not_mem_nil x), h⟩

theorem fileLoop_ranOk {C E : Type} {kernels : List (GenericKernel C E)} {ctx : C}
    {roots : List (HTree E)} {i : Nat} {k : GenericKernel C E}
    (hk : kernels[i]? = some k) (d : NodeData E) :
    ∀ files, RanOk (hookResult kernels ctx roots) (fileLoop k ctx i d files) := by
  intro files
  induction files with
  | nil => exact ranOk_nil _
  | cons f rest ih =>
    simp only [fileLoop]
    rcases hf : k.on_file ctx d f with e | u
    · exact ranOk_single_error (by simp [hookResult, hk, hf])
    · rcases hrest : fileLoop k ctx i d rest with ⟨evs, r⟩
      rw [hrest] at ih
      have hone : ∀ ev ∈ [Event.fileEv i d f], hookResult kernels ctx roots ev = .ok () := by
        intro ev hev
        simp only [List.mem_singleton] at hev
        subst hev
        simp [hookResult, hk, hf]
      have := ranOk_prepend hone ih
      simpa using this

theorem kernelLoop_ranOk {C E : Type} {kernels : List (GenericKernel C E)} {ctx : C}
    {roots : List (HTree E)} {fs : Fs} (d : NodeData E) :
    ∀ (iks : List (Nat × GenericKernel C E)),
      (∀ ik ∈ iks, kernels[ik.1]? = some ik.2) →
      RanOk (hookResult kernels ctx roots) (kernelLoop ctx fs d iks) := by
  intro iks
  induction iks with
  | nil => intro _; exact ranOk_nil _
  | cons ik iks ih =>
    intro h
    obtain ⟨i, k⟩ := ik
    have hk : kernels[i]? = some k := h (i, k) (List.mem_cons_self _ _)
    have htail := ih (fun x hx => h x (List.mem_cons_of_mem _ hx))
    simp only [kernelLoop]
    rcases hn : k.on_node ctx d with e | u
    · exact ranOk_single_error (by simp [hookResult, hk, hn])
    · have hone : ∀ ev ∈ [Event.nodeEv i d], hookResult kernels ctx roots ev = .ok () := by
        intro ev hev
        simp only [List.mem_singleton] at hev
        subst hev
        simp [hookResult, hk, hn]
      by_cases hp : (k.retrieve_file_with_pattern d).isEmpty
      · simp only [hp, if_pos rfl]
        rcases hkl : kernelLoop ctx fs d iks with ⟨revs, r⟩
        rw [hkl] at htail
        have := ranOk_prepend hone htail
        simpa using this
      · have hp' : (if (k.retrieve_file_with_pattern d).isEmpty
            then (([] : List (Event E)), (none : Option PyErr))
            else fileLoop k ctx i d (globSorted fs d.path (k.retrieve_file_with_pattern d)))
            = fileLoop k ctx i d (globSorted fs d.path (k.retrieve_file_with_pattern d)) := by
          rw [if_neg hp]
        rw [hp']
        have hfl := @fileLoop_ranOk C E kernels ctx roots i k hk d (globSorted fs d.path (k.retrieve_file_with_pattern d))
        rcases hf : fileLoop k ctx i d (globSorted fs d.path (k.retrieve_file_with_pattern d))
          with ⟨fevs, fr⟩
        rw [hf] at hfl
        cases fr with
        | some e =>
          obtain ⟨pre, ev, heq, hpre, herr⟩ := hfl
          refine ⟨Event.nodeEv i d :: pre, ev, by rw [heq, List.cons_append], ?_, herr⟩
          intro x hx
          rcases List.mem_cons.mp hx with rfl | hx
          · exact hone _ (List.mem_singleton.mpr rfl)
          · exact hpre x hx
        | none =>
          rcases hkl : kernelLoop ctx fs d iks with ⟨revs, r⟩
          rw [hkl] at htail
          have hfevs : ∀ ev ∈ Event.nodeEv i d :: fevs,
              hookResult kernels ctx roots ev = .ok () := by
            intro x hx
            rcases List.mem_cons.mp hx with rfl | hx
            · exact hone _ (List.mem_singleton.mpr rfl)
            · exact hfl x hx
          have := ranOk_prepend hfevs htail
          simpa using this

mutual
theorem walk_node_ranOk {C E : Type} {kernels : List (GenericKernel C E)} {ctx : C}
    {roots : List (HTree E)} {fs : Fs} (iks : List (Nat × GenericKernel C E))
    (h : ∀ ik ∈ iks, kernels[ik.1]? = some ik.2) :
    ∀ (t : HTree E), RanOk (hookResult kernels ctx roots) (walk_node iks ctx fs t)
  | .node d cs => by
    simp only [walk_node]
    rcases hkl : kernelLoop ctx fs d iks with ⟨evs, r⟩
    have hkl' := @kernelLoop_ranOk C E kernels ctx roots fs d iks h
    rw [hkl] at hkl'
    cases r with
    | some e => exact hkl'
    | none =>
      rcases hwf : walk_forest iks ctx fs cs with ⟨cevs, cr⟩
      have hwf' := @walk_node_ranOk_forest C E kernels ctx roots fs iks h cs
      rw [hwf] at hwf'
      exact (by simpa using ranOk_prepend hkl' hwf')

theorem walk_node_ranOk_forest {C E : Type} {kernels : List (GenericKernel C E)} {ctx : C}
    {roots : List (HTree E)} {fs : Fs} (iks : List (Nat × GenericKernel C E))
    (h : ∀ ik ∈ iks, kernels[ik.1]? = some ik.2) :
    ∀ (ts : List (HTree E)), RanOk (hookResult kernels ctx roots) (walk_forest iks ctx fs ts)
  | [] => ranOk_nil _
  | t :: ts => by
    simp only [walk_forest]
    rcases hwn : walk_node iks ctx fs t with ⟨evs, r⟩
    have hwn' := @walk_node_ranOk C E kernels ctx roots fs iks h t
    rw [hwn] at hwn'
    cases r with
    | some e => exact hwn'
    | none =>
      rcases hwf : walk_forest iks ctx fs ts with ⟨tevs, tr⟩
      have hwf' := @walk_node_ranOk_forest C E kernels ctx roots fs iks h ts
      rw [hwf] at hwf'
      exact (by simpa using ranOk_prepend hwn' hwf')
end

theorem startLoop_ranOk {C E : Type} {kernels : List (GenericKernel C E)} {ctx : C}
    {roots : List (HTree E)} :
    ∀ (iks : List (Nat × GenericKernel C E)),
      (∀ ik ∈ iks, kernels[ik.1]? = some ik.2) →
      RanOk (hookResult kernels ctx roots) (startLoop ctx roots iks) := by
  intro iks
  induction iks with
  | nil => intro _; exact ranOk_nil _
  | cons ik iks ih =>
    intro h
    obtain ⟨i, k⟩ := ik
    have hk : kernels[i]? = some k := h (i, k) (List.mem_cons_self _ _)
    have htail := ih (fun x hx => h x (List.mem_cons_of_mem _ hx))
    simp only [startLoop]
    rcases hn : k.on_project_start ctx roots with e | u
    · exact ranOk_single_error (by simp [hookResult, hk, hn])
    · rcases hs : startLoop ctx roots iks with ⟨evs, r⟩
      rw [hs] at htail
      have hone : ∀ ev ∈ ([Event.projStart i] : List (Event E)),
          hookResult kernels ctx roots ev = .ok () := by
        intro ev hev
        simp only [List.mem_singleton] at hev
        subst hev
        simp [hookResult, hk, hn]
      exact (by simpa using ranOk_prepend hone htail)

theorem endLoop_ranOk {C E : Type} {kernels : List (GenericKernel C E)} {ctx : C}
    {roots : List (HTree E)} :
    ∀ (iks : List (Nat × GenericKernel C E)),
      (∀ ik ∈ iks, kernels[ik.1]? = some ik.2) →
      RanOk (hookResult kernels ctx roots) (endLoop ctx roots iks) := by
  intro iks
  induction iks with
  | nil => intro _; exact ranOk_nil _
  | cons ik iks ih =>
    intro h
    obtain ⟨i, k⟩ := ik
    have hk : kernels[i]? = some k := h (i, k) (List.mem_cons_self _ _)
    have htail := ih (fun x hx => h x (List.mem_cons_of_mem _ hx))
    simp only [endLoop]
    rcases hn : k.on_project_end ctx roots with e | u
    · exact ranOk_single_error (by simp [hookResult, hk, hn])
    · rcases hs : endLoop ctx roots iks with ⟨evs, r⟩
      rw [hs] at htail
      have hone : ∀ ev ∈ ([Event.projEnd i] : List (Event E)),
          hookResult kernels ctx roots ev = .ok () := by
        intro ev hev
        simp only [List.mem_singleton] at hev
        subst hev
        simp [hookResult, hk, hn]
      exact (by simpa using ranOk_prepend hone htail)

theorem crawl_ranOk {C E : Type} (kernels : List (GenericKernel C E)) (ctx : C) (fs : Fs)
    (roots : List (HTree E)) :
    RanOk (hookResult kernels ctx roots) (crawl_from_nodes kernels ctx fs roots) := by
  have he : ∀ ik ∈ kernels.enum, kernels[ik.1]? = some ik.2 :=
    fun ik hik => List.mem_enum_iff_getElem?.mp hik
  simp only [crawl_from_nodes]
  rcases hs : startLoop ctx roots kernels.enum with ⟨sevs, sr⟩
  have hs' := @startLoop_ranOk C E kernels ctx roots kernels.enum he
  rw [hs] at hs'
  cases sr with
  | some e => exact hs'
  | none =>
    rcases hw : walk_forest kernels.enum ctx fs roots with ⟨wevs, wr⟩
    have hw' := @walk_node_ranOk_forest C E kernels ctx roots fs kernels.enum he roots
    rw [hw] at hw'
    cases wr with
    | some e => exact ranOk_prepend hs' hw'
    | none =>
      rcases hE : endLoop ctx roots kernels.enum with ⟨eevs, er⟩
      have hE' := @endLoop_ranOk C E kernels ctx roots kernels.enum he
      rw [hE] at hE'
      have hcomb := ranOk_prepend hw' hE'
      have hall := ranOk_prepend hs' hcomb
      simpa [List.append_assoc] using hall

/-- C4: every crawl outcome is faithful to its hooks: on success every
recorded hook call returned normally, and on failure the recorded calls
are the normal ones followed by exactly the failing call, whose exception
is the one propagated — nothing runs after it for any Observer, with no
per-Observer isolation.  In particular, in the two-Observer crawl where
the first Observer throws inside `on_file` on the first matched file of
the first node, the crawl stops right there and the second Observer's
`on_project_end` is never called (no `on_project_end` round happens at
all). -/
theorem observer_exception_aborts :
    (∀ (C E : Type) (kernels : List (GenericKernel C E)) (ctx : C) (fs : Fs)
        (roots : List (HTree E)),
      RanOk (hookResult kernels ctx roots) (crawl_from_nodes kernels ctx fs roots)) ∧
    crawl_from_nodes [kernelBoom, kernelQuiet] () crawlFs forest1
      = ([Event.projStart 0, Event.projStart 1, Event.nodeEv 0 node1,
          Event.fileEv 0 node1 ["d1".data, "a.csv".data]],
         some (.userError "boom".data)) ∧
    (crawl_from_nodes [kernelBoom, kernelQuiet] () crawlFs forest1).1.contains
      (Event.projEnd 1) = false ∧
    (crawl_from_nodes [kernelBoom, kernelQuiet] () crawlFs forest1).1.contains
      (Event.projEnd 0) = false := by
  exact ⟨fun C E kernels ctx fs roots => crawl_ranOk kernels ctx fs roots,
    rfl, by decide, by decide⟩
